import Mathlib

/-!
# mackerel-plugin-pdns: the counter parser and the graph catalogue

A shallow embedding of `src/cmd/mackerel-plugin-pdns/main.go`.

Modelling decisions.

* A Go `string` is a Lean `String`.  The only bytes the program inspects are the
  ASCII separators `,` and `=`; in UTF-8 these bytes occur only as the encoding
  of those characters, so cutting at the byte and cutting at the character agree
  on every output that is valid UTF-8.
* A Go `map[string]V` is a `Finmap` with `String` keys: a finite map whose
  equality is extensional, as for Go maps.  A `nil` map is `none`, a non-nil map
  `m` is `some m`.
* `exec.Command(path, args...).Output()` and `strconv.ParseFloat(·, 64)` belong
  to the Go standard library.  They are parameters of `FetchMetrics`: `Output`
  returns the captured bytes together with an optional error, `ParseFloat`
  returns `none` exactly when Go returns a non-nil error.  The general theorems
  hold for every choice of these parameters.
* `strings.Title` is a parameter of `GraphDefinition` in the same way;
  `stringsTitle` is a reference instance of it, with the Unicode tables it
  consults above ASCII as a parameter.
* A method with a pointer receiver that assigns to a field returns its result
  together with the receiver after the call.
-/

namespace PdnsPlugin

/-! ## Data model -/

/-- Go `map[string]V`. -/
abbrev GoMap (V : Type) : Type := Finmap (fun _ : String => V)

/-- The map literal `map[string]V{k₁: v₁, …}`: the entries are stored one after the
other (Go rejects a literal with duplicate constant keys). -/
def GoMap.ofList {V : Type} (l : List (String × V)) : GoMap V :=
  l.foldl (fun m kv => m.insert kv.1 kv.2) ∅

/-- The receiver type: `type Plugin struct { Prefix string; CommandPath string }`. -/
structure Plugin where
  Prefix : String
  CommandPath : String
  deriving DecidableEq, Repr

/-! ## `strings.Split` and `strings.SplitN` with a one-character separator -/

/-- What `strings.Index` followed by the two slicings of Go's `genSplit` yields:
the text before the first `sep` and the text after it, if `sep` occurs. -/
def cutAt (sep : Char) : List Char → Option (List Char × List Char)
  | [] => none
  | c :: cs =>
    if c = sep then some ([], cs)
    else (cutAt sep cs).map fun p => (c :: p.1, p.2)

/-- The loop of Go's `genSplit`: cut at `sep` at most `k` times; the last piece is
the unsplit remainder. -/
def genSplit (sep : Char) : Nat → List Char → List (List Char)
  | 0, s => [s]
  | k + 1, s =>
    match cutAt sep s with
    | none => [s]
    | some (a, rest) => a :: genSplit sep k rest

/-- Go's `strings.Split(s, sep)`: `n = Count(s, sep) + 1` pieces. -/
def Split (s : String) (sep : Char) : List String :=
  (genSplit sep (s.data.count sep) s.data).map String.mk

/-- Go's `strings.SplitN(s, sep, n)` for `n ≥ 0`: `nil` for `n = 0`, otherwise at most `n`
pieces. -/
def SplitN (s : String) (sep : Char) (n : Nat) : List String :=
  match n with
  | 0 => []
  | k + 1 => (genSplit sep k s.data).map String.mk

/-! ## `FetchMetrics` -/

/-- One iteration of the `for _, b := range …` loop of `FetchMetrics`. -/
def FetchMetrics.step {V : Type} (ParseFloat : String → Option V)
    (result : GoMap V) (b : String) : GoMap V :=
  match SplitN b '=' 2 with
  | [k, v] =>
    match ParseFloat v with
    | none => result
    | some f => result.insert k f
  | _ => result

/-- Lines 193–205: the loop over `strings.Split(string(buf), ",")`, starting from
the empty map. -/
def FetchMetrics.parse {V : Type} (ParseFloat : String → Option V) (buf : String) :
    GoMap V :=
  (Split buf ',').foldl (FetchMetrics.step ParseFloat) ∅

/-- The method `func (u *Plugin) FetchMetrics() (map[string]float64, error)`. -/
def FetchMetrics {V ε : Type} (Output : String → List String → String × Option ε)
    (ParseFloat : String → Option V) (u : Plugin) : Option (GoMap V) × Option ε :=
  match Output u.CommandPath ["show", "*"] with
  | (_, some err) => (none, some err)
  | (buf, none) => (some (FetchMetrics.parse ParseFloat buf), none)

/-- A control command that succeeds and prints `out`. -/
def stubOutput {ε : Type} (out : String) : String → List String → String × Option ε :=
  fun _ _ => (out, none)


/-! ## Vocabulary of the specification -/

/-- All pieces of `s` between occurrences of `sep`: what `strings.Split` computes. -/
def pieces (sep : Char) (s : List Char) : List (List Char) :=
  genSplit sep (s.count sep) s

/-- Joining with the separator, on character lists. -/
def joinWith (sep : Char) : List (List Char) → List Char
  | [] => []
  | [f] => f
  | f :: g :: fs => f ++ sep :: joinWith sep (g :: fs)

/-- The comma-joined text of a sequence of fragments. -/
def commaJoin (frs : List String) : String :=
  String.mk (joinWith ',' (frs.map String.data))

/-- The text of `b` before its first `sep` (all of `b` when `sep` does not occur). -/
def textBefore (sep : Char) (b : String) : String :=
  String.mk (b.data.takeWhile fun c => decide (c ≠ sep))

/-- The text of `b` after its first `sep` (empty when `sep` does not occur). -/
def textAfter (sep : Char) (b : String) : String :=
  String.mk ((b.data.dropWhile fun c => decide (c ≠ sep)).drop 1)

/-- The fragment `name=value`. -/
def pair (kv : String × String) : String :=
  kv.1 ++ "=" ++ kv.2

/-- A fragment is malformed when it has no `=` or the text after its first `=` does
not parse as a float. -/
def malformed {V : Type} (ParseFloat : String → Option V) (b : String) : Bool :=
  decide ('=' ∉ b.data) || (ParseFloat (textAfter '=' b)).isNone

/-- The entry a fragment stands for, read off the text: the name before the first
`=` with the parsed number after it. -/
def entryOf {V : Type} (ParseFloat : String → Option V) (b : String) : Option (String × V) :=
  if '=' ∈ b.data then
    (ParseFloat (textAfter '=' b)).map fun f => (textBefore '=' b, f)
  else none

/-! ## A reference instance of `ParseFloat`

`strconv.ParseFloat(s, 64)` on plain decimal literals: an optional sign, digits
with at most one `.`, at least one digit.  On these Go returns the binary64 nearest
to the denoted number, and a range error when that is infinite, that is when the
magnitude reaches `2^1024 - 2^970`.  The instance returns the denoted number
itself, as a rational; the rounding to binary64 and the sign of zero are not
modelled (the rounding is the identity on the literals used below).  The other literals Go accepts (exponents,
hexadecimal, underscores, `inf`, `nan`) are rejected by this instance. -/

/-- The value of a decimal digit. -/
def digitVal (c : Char) : Option Nat :=
  if '0' ≤ c ∧ c ≤ '9' then some (c.toNat - '0'.toNat) else none

/-- Scan `digits [ "." digits ]`: the digits read as one natural number and the
number of digits after the point. -/
def readMantissa : List Char → Bool → Nat → Nat → Bool → Option (Nat × Nat)
  | [], _, mant, frac, sawdigits => if sawdigits then some (mant, frac) else none
  | c :: cs, sawdot, mant, frac, sawdigits =>
    if c = '.' then
      if sawdot then none else readMantissa cs true mant frac sawdigits
    else
      match digitVal c with
      | none => none
      | some d =>
        readMantissa cs sawdot (mant * 10 + d) (if sawdot then frac + 1 else frac) true

/-- The least magnitude that rounds to an infinite binary64: `2^1024 - 2^970`. -/
def float64Overflow : Nat :=
  179769313486231580793728971405303415079934132710037826936173778980444968292764750946649017977587207096330286416692887910946555547851940402630657488671505820681908902000708383676273854845817711531764475730270069855571366959622842914819860834936475292719074168444365510704342711559699508093042880177904174497792

/-- Sign, digits and number of fraction digits of a plain decimal literal in the
range of binary64. -/
def readDecimal (s : List Char) : Option (Bool × Nat × Nat) :=
  let signed : Bool × List Char :=
    match s with
    | '+' :: r => (false, r)
    | '-' :: r => (true, r)
    | r => (false, r)
  match readMantissa signed.2 false 0 0 false with
  | none => none
  | some (mant, frac) =>
    if float64Overflow * 10 ^ frac ≤ mant then none
    else some (signed.1, mant, frac)

/-- The number denoted by sign, digits and number of fraction digits. -/
def decimalValue (d : Bool × Nat × Nat) : ℚ :=
  (if d.1 then -1 else 1) * (d.2.1 : ℚ) / 10 ^ d.2.2

/-- The reference instance of `ParseFloat`. -/
def parseFloatDecimal (s : String) : Option ℚ :=
  (readDecimal s.data).map decimalValue


/-! ## `GraphDefinition` -/

/-- The fields of `mp.Metrics` the program sets; a field left out of a literal has
its zero value. -/
structure Metrics where
  Name : String
  Label : String
  Diff : Bool := false
  Stacked : Bool := false
  deriving DecidableEq, Repr

/-- The type `mp.Graphs`: a label, a unit and the ordered metrics. -/
structure Graphs where
  Label : String
  Unit : String
  Metrics : List Metrics
  deriving DecidableEq, Repr

/-- The map literal of `GraphDefinition` (lines 43–185), entry by entry in source
order, for a given value of the local `labelPrefix`. -/
def graphTable (labelPrefix : String) : List (String × Graphs) :=
  [
    ("dnsupdate", {
      Label := labelPrefix ++ ": Dynamic DNS Update",
      Unit := "integer",
      Metrics := [
        { Name := "dnsupdate-answers", Label := "Answers", Diff := true },
        { Name := "dnsupdate-changes", Label := "Changes", Diff := true },
        { Name := "dnsupdate-queries", Label := "Queries", Diff := true },
        { Name := "dnsupdate-refused", Label := "Refused", Diff := true } ] }),
    ("notifications", {
      Label := labelPrefix ++ ": DNS Notifications",
      Unit := "integer",
      Metrics := [
        { Name := "incoming-notifications", Label := "Incoming", Diff := true } ] }),
    ("packetcache", {
      Label := labelPrefix ++ ": Packet Cache",
      Unit := "integer",
      Metrics := [
        { Name := "packetcache-hit", Label := "Hits", Stacked := true, Diff := true },
        { Name := "packetcache-miss", Label := "Misses", Stacked := true, Diff := true } ] }),
    ("query-cache", {
      Label := labelPrefix ++ ": Query Cache",
      Unit := "integer",
      Metrics := [
        { Name := "query-cache-hit", Label := "Hits", Stacked := true, Diff := true },
        { Name := "query-cache-miss", Label := "Misses", Stacked := true, Diff := true } ] }),
    ("cache-size", {
      Label := labelPrefix ++ ": Cache Sizes",
      Unit := "integer",
      Metrics := [
        { Name := "packetcache-size", Label := "Packet cache" },
        { Name := "key-cache-size", Label := "Key cache" },
        { Name := "signature-cache-size", Label := "Signature cache" },
        { Name := "meta-cache-size", Label := "Metadata cache" } ] }),
    ("fails", {
      Label := labelPrefix ++ ": Failed packets",
      Unit := "integer",
      Metrics := [
        { Name := "servfail-packets", Label := "SERVFAIL packets", Diff := true },
        { Name := "corrupt-packets", Label := "Corrupt packets", Diff := true },
        { Name := "timedout-packets", Label := "Timedout packets", Diff := true },
        { Name := "overload-drops", Label := "Dropped because backends overload", Diff := true } ] }),
    ("backend", {
      Label := labelPrefix ++ ": Backend",
      Unit := "integer",
      Metrics := [
        { Name := "backend-queries", Label := "Backend queries", Diff := true } ] }),
    ("tcp-connection", {
      Label := labelPrefix ++ ": Backend",
      Unit := "integer",
      Metrics := [
        { Name := "open-tcp-connections", Label := "TCP Connections" },
        { Name := "fd-usage", Label := "FD usage" } ] }),
    ("signatures", {
      Label := labelPrefix ++ ": DNSSEC Signatures",
      Unit := "integer",
      Metrics := [
        { Name := "signatures", Label := "Signatures created", Diff := true } ] }),
    ("latency", {
      Label := labelPrefix ++ ": Latency (microseconds)",
      Unit := "integer",
      Metrics := [
        { Name := "latency", Label := "Latency" } ] }),
    ("qsize", {
      Label := labelPrefix ++ ": Queue Size",
      Unit := "integer",
      Metrics := [
        { Name := "qsize-q", Label := "Queue size" } ] }),
    ("answers", {
      Label := labelPrefix ++ ": Answers",
      Unit := "integer",
      Metrics := [
        { Name := "tcp-answers", Label := "TCP", Diff := true },
        { Name := "udp-answers", Label := "UDP", Diff := true },
        { Name := "tcp4-answers", Label := "TCP4", Stacked := true, Diff := true },
        { Name := "udp4-answers", Label := "UDP4", Stacked := true, Diff := true },
        { Name := "tcp6-answers", Label := "TCP6", Stacked := true, Diff := true },
        { Name := "udp6-answers", Label := "UDP6", Stacked := true, Diff := true } ] }),
    ("queries", {
      Label := labelPrefix ++ ": Queries",
      Unit := "integer",
      Metrics := [
        { Name := "tcp-queries", Label := "TCP", Diff := true },
        { Name := "udp-queries", Label := "UDP", Diff := true },
        { Name := "tcp4-queries", Label := "TCP4", Stacked := true, Diff := true },
        { Name := "udp4-queries", Label := "UDP4", Stacked := true, Diff := true },
        { Name := "tcp6-queries", Label := "TCP6", Stacked := true, Diff := true },
        { Name := "udp6-queries", Label := "UDP6", Stacked := true, Diff := true },
        { Name := "udp-do-queries", Label := "UDP DO queries", Diff := true } ] }),
    ("answer-bytes", {
      Label := labelPrefix ++ ": Answer Bytes",
      Unit := "integer",
      Metrics := [
        { Name := "tcp-answers-bytes", Label := "TCP", Diff := true },
        { Name := "udp-answers-bytes", Label := "UDP", Diff := true },
        { Name := "tcp4-answers-bytes", Label := "TCP4", Stacked := true, Diff := true },
        { Name := "udp4-answers-bytes", Label := "UDP4", Stacked := true, Diff := true },
        { Name := "tcp6-answers-bytes", Label := "TCP6", Stacked := true, Diff := true },
        { Name := "udp6-answers-bytes", Label := "UDP6", Stacked := true, Diff := true } ] }),
    ("memory", {
      Label := labelPrefix ++ ": Memory Usage",
      Unit := "bytes",
      Metrics := [
        { Name := "real-memory-usage", Label := "Usage" } ] }),
    ("cpu", {
      Label := labelPrefix ++ ": CPU Usage (milliseconds)",
      Unit := "integer",
      Metrics := [
        { Name := "user-msec", Label := "User", Diff := true },
        { Name := "sys-msec", Label := "System", Diff := true } ] }) ]

/-- The method `func (p *Plugin) GraphDefinition() map[string]mp.Graphs`, with `strings.Title` as
the parameter `Title`. -/
def GraphDefinition (Title : String → String) (p : Plugin) : GoMap Graphs :=
  let labelPrefix := Title p.Prefix
  GoMap.ofList (graphTable labelPrefix)

/-- The part of a graph that is not its label: the unit and the ordered metrics. -/
def Graphs.shape (g : Graphs) : String × List PdnsPlugin.Metrics :=
  (g.Unit, g.Metrics)

/-- Every stacked metric of the list has a stacked sibling of another name. -/
def stackedInCompany (ms : List Metrics) : Bool :=
  ms.all fun m => !m.Stacked || ms.any fun m' => decide (m'.Name ≠ m.Name) && m'.Stacked

/-! ## `MetricKeyPrefix` -/

/-- The method `func (p *Plugin) MetricKeyPrefix() string`: the returned string together
with the receiver after the call. -/
def MetricKeyPrefix (p : Plugin) : String × Plugin :=
  let p' : Plugin := if p.Prefix = "" then { p with Prefix := "pdns" } else p
  (p'.Prefix, p')

/-! ## A reference instance of `Title`

Go's `strings.Title` maps every rune of its argument, in order, remembering the
previous rune (a space before the first): a rune that follows a separator goes
through `unicode.ToTitle`, any other rune is kept.  On runes up to `0x7F` both
`isSeparator` and `unicode.ToTitle` are spelled out in the library; above, they
consult the Unicode tables, which are a parameter here. -/

/-- The Unicode tables `strings.Title` consults for runes above `0x7F`. -/
structure UnicodeTables where
  IsLetter : Char → Bool
  IsDigit : Char → Bool
  IsSpace : Char → Bool
  ToTitle : Char → Char

/-- The library's `isSeparator`: ASCII letters, digits and the underscore are not
separators, any other ASCII rune is; above ASCII, letters and digits are not and
spaces are. -/
def isSeparator (U : UnicodeTables) (r : Char) : Bool :=
  if r.toNat ≤ 0x7F then
    if '0' ≤ r ∧ r ≤ '9' then false
    else if 'a' ≤ r ∧ r ≤ 'z' then false
    else if 'A' ≤ r ∧ r ≤ 'Z' then false
    else if r = '_' then false
    else true
  else if U.IsLetter r || U.IsDigit r then false
  else U.IsSpace r

/-- The library's `unicode.ToTitle`: on ASCII, `a`–`z` go to `A`–`Z`. -/
def ToTitle (U : UnicodeTables) (r : Char) : Char :=
  if r.toNat ≤ 0x7F then
    if 'a' ≤ r ∧ r ≤ 'z' then Char.ofNat (r.toNat - ('a'.toNat - 'A'.toNat)) else r
  else U.ToTitle r

/-- The closure of `strings.Title` run over the runes, `prev` being its state. -/
def titleRunes (U : UnicodeTables) : Char → List Char → List Char
  | _, [] => []
  | prev, r :: rs => (if isSeparator U prev then ToTitle U r else r) :: titleRunes U r rs

/-- The reference instance of `Title`. -/
def stringsTitle (U : UnicodeTables) (s : String) : String :=
  String.mk (titleRunes U ' ' s.data)

/-! ## Vocabulary of the specification, continued -/

/-- The string with its first character title-cased and all others unchanged. -/
def upperFirst (U : UnicodeTables) (s : String) : String :=
  match s.data with
  | [] => ""
  | c :: cs => String.mk (ToTitle U c :: cs)

/-- The rune before position `i` of a text, a space before the first. -/
def runeBefore (cs : List Char) (i : Nat) : Char :=
  match i with
  | 0 => ' '
  | j + 1 => cs.getD j ' '

/-- The fixed title of each graph, by key. -/
def graphTitles : List (String × String) :=
  [("dnsupdate", "Dynamic DNS Update"), ("notifications", "DNS Notifications"),
    ("packetcache", "Packet Cache"), ("query-cache", "Query Cache"),
    ("cache-size", "Cache Sizes"), ("fails", "Failed packets"), ("backend", "Backend"),
    ("tcp-connection", "Backend"), ("signatures", "DNSSEC Signatures"),
    ("latency", "Latency (microseconds)"), ("qsize", "Queue Size"), ("answers", "Answers"),
    ("queries", "Queries"), ("answer-bytes", "Answer Bytes"), ("memory", "Memory Usage"),
    ("cpu", "CPU Usage (milliseconds)")]

/-- The gauge metrics: the four cache sizes, memory usage, latency, queue size, open
TCP connections and file-descriptor usage. -/
def gaugeNames : List String :=
  ["packetcache-size", "key-cache-size", "signature-cache-size", "meta-cache-size",
    "real-memory-usage", "latency", "qsize-q", "open-tcp-connections", "fd-usage"]

/-- The white-space characters space, tab, newline and carriage return. -/
def isBlank (c : Char) : Bool :=
  c = ' ' || c = '\t' || c = '\n' || c = '\r'

/-- The map `s` overridden by the map `t`: the keys of `t` win, the other keys of `s`
are kept. -/
def overriddenBy {V : Type} (s t : GoMap V) : GoMap V :=
  t ∪ s

/-- Unicode tables that know no letter, digit or space above `0x7F` and title-case
nothing there; on ASCII text `strings.Title` does not consult the tables. -/
def asciiOnly : UnicodeTables :=
  { IsLetter := fun _ => false
    IsDigit := fun _ => false
    IsSpace := fun _ => false
    ToTitle := fun r => r }


/-! # Theorems -/

/-! ## Facts about cutting and splitting -/

theorem cutAt_eq_none_iff (sep : Char) (s : List Char) : cutAt sep s = none ↔ sep ∉ s := by
  induction s with
  | nil => simp [cutAt]
  | cons c cs ih =>
    by_cases h : c = sep
    · simp [cutAt, h]
    · have h' : ¬ sep = c := fun e => h e.symm
      simp [cutAt, h, h', ih]

theorem cutAt_append (sep : Char) (a r : List Char) (ha : sep ∉ a) :
    cutAt sep (a ++ sep :: r) = some (a, r) := by
  induction a with
  | nil => simp [cutAt]
  | cons c cs ih =>
    have hc : ¬ c = sep := fun e => ha (by simp [e])
    have hcs : sep ∉ cs := fun e => ha (by simp [e])
    simp [cutAt, hc, ih hcs]

theorem cutAt_some (sep : Char) (s a r : List Char) (h : cutAt sep s = some (a, r)) :
    s = a ++ sep :: r ∧ sep ∉ a := by
  induction s generalizing a with
  | nil => simp [cutAt] at h
  | cons c cs ih =>
    by_cases hc : c = sep
    · simp [cutAt, hc] at h
      obtain ⟨rfl, rfl⟩ := h
      simp [hc]
    · simp only [cutAt, hc, if_false, Option.map_eq_some'] at h
      obtain ⟨⟨a', r'⟩, hp, he⟩ := h
      simp only [Prod.mk.injEq] at he
      obtain ⟨rfl, rfl⟩ := he
      obtain ⟨h1, h2⟩ := ih a' hp
      refine ⟨by simp [h1], ?_⟩
      intro hm
      rcases List.mem_cons.1 hm with e | e
      · exact hc e.symm
      · exact h2 e

theorem genSplit_of_not_mem (sep : Char) (k : Nat) (s : List Char) (h : sep ∉ s) :
    genSplit sep k s = [s] := by
  cases k with
  | zero => rfl
  | succ k => simp [genSplit, (cutAt_eq_none_iff sep s).2 h]

theorem pieces_of_not_mem (sep : Char) (s : List Char) (h : sep ∉ s) : pieces sep s = [s] :=
  genSplit_of_not_mem sep _ s h

theorem pieces_append (sep : Char) (a r : List Char) (ha : sep ∉ a) :
    pieces sep (a ++ sep :: r) = a :: pieces sep r := by
  have hcount : (a ++ sep :: r).count sep = r.count sep + 1 := by
    simp [List.count_append, List.count_eq_zero_of_not_mem ha]
  simp [pieces, hcount, genSplit, cutAt_append sep a r ha]

theorem pieces_ne_nil (sep : Char) (s : List Char) : pieces sep s ≠ [] := by
  unfold pieces
  cases h : s.count sep with
  | zero => simp [genSplit]
  | succ k =>
    simp only [genSplit]
    cases cutAt sep s with
    | none => simp
    | some p => simp

/-- Every piece is free of the separator. -/
theorem not_mem_of_mem_pieces (sep : Char) (s : List Char) :
    ∀ f ∈ pieces sep s, sep ∉ f := by
  obtain ⟨n, hn⟩ : ∃ n, s.length = n := ⟨_, rfl⟩
  induction n using Nat.strong_induction_on generalizing s with
  | _ n ih =>
    by_cases hs : sep ∈ s
    · have hc : cutAt sep s ≠ none := fun e => (cutAt_eq_none_iff sep s).1 e hs
      obtain ⟨⟨a, r⟩, hp⟩ := Option.ne_none_iff_exists'.1 hc
      obtain ⟨h1, h2⟩ := cutAt_some sep s a r hp
      subst h1
      rw [pieces_append sep a r h2]
      intro f hf
      rcases List.mem_cons.1 hf with e | e
      · exact e ▸ h2
      · exact ih r.length (by subst hn; simp; omega) r rfl f e
    · rw [pieces_of_not_mem sep s hs]
      intro f hf
      simp at hf
      exact hf ▸ hs

theorem pieces_joinWith (sep : Char) (fs : List (List Char)) (hne : fs ≠ [])
    (hfs : ∀ f ∈ fs, sep ∉ f) : pieces sep (joinWith sep fs) = fs := by
  induction fs with
  | nil => exact absurd rfl hne
  | cons f gs ih =>
    cases gs with
    | nil => simpa [joinWith] using pieces_of_not_mem sep f (hfs f (by simp))
    | cons g gs =>
      have hf : sep ∉ f := hfs f (by simp)
      simp only [joinWith]
      rw [pieces_append sep f _ hf, ih (by simp) (fun x hx => hfs x (List.mem_cons_of_mem _ hx))]

theorem pieces_append_sep (sep : Char) (s t : List Char) :
    pieces sep (s ++ sep :: t) = pieces sep s ++ pieces sep t := by
  obtain ⟨n, hn⟩ : ∃ n, s.length = n := ⟨_, rfl⟩
  induction n using Nat.strong_induction_on generalizing s with
  | _ n ih =>
    by_cases hs : sep ∈ s
    · have hc : cutAt sep s ≠ none := fun e => (cutAt_eq_none_iff sep s).1 e hs
      obtain ⟨⟨a, r⟩, hp⟩ := Option.ne_none_iff_exists'.1 hc
      obtain ⟨h1, h2⟩ := cutAt_some sep s a r hp
      subst h1
      have e : a ++ sep :: r ++ sep :: t = a ++ sep :: (r ++ sep :: t) := by simp
      rw [e, pieces_append sep a _ h2, pieces_append sep a r h2,
        ih r.length (by subst hn; simp; omega) r rfl]
      simp
    · rw [pieces_append sep s t hs, pieces_of_not_mem sep s hs]
      simp

theorem Split_eq (s : String) (sep : Char) : Split s sep = (pieces sep s.data).map String.mk := rfl

/-! ## One fragment -/

theorem cutAt_eq_takeWhile (sep : Char) (s : List Char) :
    cutAt sep s =
      if sep ∈ s then
        some (s.takeWhile (fun c => decide (c ≠ sep)),
          (s.dropWhile fun c => decide (c ≠ sep)).drop 1)
      else none := by
  induction s with
  | nil => simp [cutAt]
  | cons c cs ih =>
    by_cases h : c = sep
    · subst h
      simp [cutAt]
    · have h' : ¬ sep = c := fun e => h e.symm
      by_cases hm : sep ∈ cs
      · simp [cutAt, h, h', ih, hm, List.takeWhile_cons, List.dropWhile_cons]
      · simp [cutAt, h, h', ih, hm]

theorem SplitN_two (b : String) :
    SplitN b '=' 2 =
      if '=' ∈ b.data then [textBefore '=' b, textAfter '=' b] else [b] := by
  by_cases h : '=' ∈ b.data
  · simp [SplitN, genSplit, cutAt_eq_takeWhile, h, textBefore, textAfter]
  · simp [SplitN, genSplit, cutAt_eq_takeWhile, h]

/-- The loop body inserts the entry the fragment stands for, if any. -/
theorem step_eq {V : Type} (pf : String → Option V) (m : GoMap V) (b : String) :
    FetchMetrics.step pf m b =
      match entryOf pf b with
      | none => m
      | some p => m.insert p.1 p.2 := by
  by_cases h : '=' ∈ b.data
  · simp only [FetchMetrics.step, SplitN_two, h, if_true, entryOf]
    cases pf (textAfter '=' b) <;> rfl
  · simp only [FetchMetrics.step, SplitN_two, h, if_false, entryOf]

theorem textBefore_pair (k v : String) (hk : '=' ∉ k.data) :
    textBefore '=' (pair (k, v)) = k := by
  have e : (pair (k, v)).data = k.data ++ '=' :: v.data := by
    simp [pair, String.data_append]
  have ht : ∀ l : List Char, '=' ∉ l → ∀ r : List Char,
      (l ++ '=' :: r).takeWhile (fun c => decide (c ≠ '=')) = l := by
    intro l
    induction l with
    | nil => intro _ r; simp
    | cons c cs ih =>
      intro hl r
      have hc : c ≠ '=' := fun e => hl (by simp [e])
      have hcs : '=' ∉ cs := fun e => hl (by simp [e])
      simpa [List.takeWhile_cons, hc] using ih hcs r
  simp only [textBefore, e, ht k.data hk]

theorem textAfter_pair (k v : String) (hk : '=' ∉ k.data) :
    textAfter '=' (pair (k, v)) = v := by
  have e : (pair (k, v)).data = k.data ++ '=' :: v.data := by
    simp [pair, String.data_append]
  have ht : ∀ l : List Char, '=' ∉ l → ∀ r : List Char,
      (l ++ '=' :: r).dropWhile (fun c => decide (c ≠ '=')) = '=' :: r := by
    intro l
    induction l with
    | nil => intro _ r; simp
    | cons c cs ih =>
      intro hl r
      have hc : c ≠ '=' := fun e => hl (by simp [e])
      have hcs : '=' ∉ cs := fun e => hl (by simp [e])
      simpa [List.dropWhile_cons, hc] using ih hcs r
  simp only [textAfter, e, ht k.data hk, List.drop_one, List.tail_cons]

theorem mem_data_pair (k v : String) : '=' ∈ (pair (k, v)).data := by
  simp [pair, String.data_append]

theorem entryOf_pair {V : Type} (pf : String → Option V) (k v : String)
    (hk : '=' ∉ k.data) : entryOf pf (pair (k, v)) = (pf v).map fun f => (k, f) := by
  simp only [entryOf, mem_data_pair, if_true, textBefore_pair k v hk, textAfter_pair k v hk]

theorem entryOf_of_malformed {V : Type} (pf : String → Option V) (b : String)
    (h : malformed pf b = true) : entryOf pf b = none := by
  by_cases he : '=' ∈ b.data
  · simp [malformed, he] at h
    simp [entryOf, he, h]
  · simp [entryOf, he]

theorem entryOf_isSome_iff {V : Type} (pf : String → Option V) (b : String) :
    (entryOf pf b).isSome = !malformed pf b := by
  by_cases he : '=' ∈ b.data
  · cases hp : pf (textAfter '=' b) <;> simp [entryOf, malformed, he, hp]
  · simp [entryOf, malformed, he]

/-! ## The loop -/

theorem foldl_step_append {V : Type} (pf : String → Option V) (m : GoMap V)
    (xs ys : List String) :
    (xs ++ ys).foldl (FetchMetrics.step pf) m =
      ys.foldl (FetchMetrics.step pf) (xs.foldl (FetchMetrics.step pf) m) :=
  List.foldl_append _ _ _ _

/-- Fragments that stand for no entry under `k` leave the value under `k` alone. -/
theorem lookup_foldl_of_no_entry {V : Type} (pf : String → Option V) (k : String)
    (frs : List String) (h : ∀ b ∈ frs, ∀ f, entryOf pf b ≠ some (k, f)) (m : GoMap V) :
    (frs.foldl (FetchMetrics.step pf) m).lookup k = m.lookup k := by
  induction frs generalizing m with
  | nil => rfl
  | cons b bs ih =>
    rw [List.foldl_cons, ih (fun b' hb' => h b' (List.mem_cons_of_mem _ hb'))]
    rw [step_eq]
    cases he : entryOf pf b with
    | none => rfl
    | some p =>
      have hne : k ≠ p.1 := by
        intro e
        exact h b (List.mem_cons_self _ _) p.2 (by rw [he, e])
      exact Finmap.lookup_insert_of_ne m hne

/-- The last fragment that stands for an entry under `k` decides the value. -/
theorem lookup_foldl_last {V : Type} (pf : String → Option V) (k : String) (f : V)
    (pre post : List String) (b : String) (hb : entryOf pf b = some (k, f))
    (hpost : ∀ b' ∈ post, ∀ f', entryOf pf b' ≠ some (k, f')) (m : GoMap V) :
    ((pre ++ b :: post).foldl (FetchMetrics.step pf) m).lookup k = some f := by
  rw [foldl_step_append, List.foldl_cons, lookup_foldl_of_no_entry pf k post hpost,
    step_eq, hb]
  exact Finmap.lookup_insert _

/-- The keys after the loop: the old keys and the names of the entries read. -/
theorem mem_foldl_step {V : Type} (pf : String → Option V) (k : String)
    (frs : List String) (m : GoMap V) :
    k ∈ frs.foldl (FetchMetrics.step pf) m ↔
      k ∈ m ∨ ∃ b ∈ frs, ∃ f, entryOf pf b = some (k, f) := by
  induction frs generalizing m with
  | nil => simp
  | cons b bs ih =>
    rw [List.foldl_cons, ih, step_eq]
    cases he : entryOf pf b with
    | none => simp [he]
    | some p =>
      obtain ⟨k', f'⟩ := p
      simp only [Finmap.mem_insert, List.mem_cons, exists_eq_or_imp, he, Option.some.injEq,
        Prod.mk.injEq]
      constructor
      · rintro ((rfl | h) | h)
        · exact Or.inr (Or.inl ⟨f', rfl, rfl⟩)
        · exact Or.inl h
        · exact Or.inr (Or.inr h)
      · rintro (h | ⟨f, rfl, rfl⟩ | h)
        · exact Or.inl (Or.inr h)
        · exact Or.inl (Or.inl rfl)
        · exact Or.inr h

/-- Fragments that stand for no entry can be left out. -/
theorem foldl_step_filter {V : Type} (pf : String → Option V) (frs : List String)
    (m : GoMap V) :
    (frs.filter fun b => !malformed pf b).foldl (FetchMetrics.step pf) m =
      frs.foldl (FetchMetrics.step pf) m := by
  induction frs generalizing m with
  | nil => rfl
  | cons b bs ih =>
    by_cases hb : malformed pf b = true
    · have : FetchMetrics.step pf m b = m := by
        rw [step_eq, entryOf_of_malformed pf b hb]
      simp [List.filter_cons, hb, ih, this]
    · simp [List.filter_cons, hb, ih]

/-- The result depends on the command only through what it returns for `show *`. -/
theorem FetchMetrics_of_output {V ε : Type} (Output : String → List String → String × Option ε)
    (pf : String → Option V) (u : Plugin) (out : String)
    (h : Output u.CommandPath ["show", "*"] = (out, none)) :
    FetchMetrics Output pf u = (some (FetchMetrics.parse pf out), none) := by
  unfold FetchMetrics
  rw [h]

theorem FetchMetrics_stub {V ε : Type} (pf : String → Option V) (u : Plugin) (out : String) :
    FetchMetrics (stubOutput out : String → List String → String × Option ε) pf u =
      (some (FetchMetrics.parse pf out), none) := rfl


/-! ## Splitting a joined text -/

theorem String_mk_data (s : String) : String.mk s.data = s := rfl

theorem Split_commaJoin (frs : List String) (hne : frs ≠ [])
    (h : ∀ b ∈ frs, ',' ∉ b.data) : Split (commaJoin frs) ',' = frs := by
  have h1 : pieces ',' (joinWith ',' (frs.map String.data)) = frs.map String.data := by
    apply pieces_joinWith
    · simpa using hne
    · intro f hf
      obtain ⟨b, hb, rfl⟩ := List.mem_map.1 hf
      exact h b hb
  rw [Split_eq]
  show (pieces ',' (joinWith ',' (frs.map String.data))).map String.mk = frs
  rw [h1, List.map_map]
  exact List.map_id'' (fun s => String_mk_data s) frs

theorem not_mem_of_mem_Split (s b : String) (hb : b ∈ Split s ',') : ',' ∉ b.data := by
  rw [Split_eq] at hb
  obtain ⟨f, hf, rfl⟩ := List.mem_map.1 hb
  exact not_mem_of_mem_pieces ',' s.data f hf

theorem pair_textBefore_textAfter (b : String) (h : '=' ∈ b.data) :
    pair (textBefore '=' b, textAfter '=' b) = b := by
  have key : ∀ l : List Char, '=' ∈ l →
      l.takeWhile (fun c => decide (c ≠ '=')) ++
        '=' :: (l.dropWhile fun c => decide (c ≠ '=')).drop 1 = l := by
    intro l
    induction l with
    | nil => intro hl; simp at hl
    | cons c cs ih =>
      intro hl
      by_cases hc : c = '='
      · subst hc
        simp
      · have hcs : '=' ∈ cs := by
          rcases List.mem_cons.1 hl with e | e
          · exact absurd e.symm hc
          · exact e
        simpa [List.takeWhile_cons, List.dropWhile_cons, hc] using ih hcs
  have e : (pair (textBefore '=' b, textAfter '=' b)).data = b.data := by
    simp only [pair, String.data_append, textBefore, textAfter]
    simpa using key b.data h
  calc pair (textBefore '=' b, textAfter '=' b)
      = String.mk (pair (textBefore '=' b, textAfter '=' b)).data := rfl
    _ = String.mk b.data := by rw [e]
    _ = b := rfl

theorem entryOf_eq_some {V : Type} (pf : String → Option V) (b k : String) (f : V)
    (h : entryOf pf b = some (k, f)) :
    '=' ∈ b.data ∧ textBefore '=' b = k ∧ pf (textAfter '=' b) = some f := by
  by_cases he : '=' ∈ b.data
  · simp only [entryOf, he, if_true, Option.map_eq_some', Prod.mk.injEq] at h
    obtain ⟨f', hf', hk, rfl⟩ := h
    exact ⟨he, hk, hf'⟩
  · simp [entryOf, he] at h

theorem parse_empty {V : Type} (pf : String → Option V) : FetchMetrics.parse pf "" = ∅ := by
  show FetchMetrics.step pf ∅ "" = ∅
  rw [step_eq]
  rfl

/-- The text of the reference examples, parsed by the reference instance. -/
theorem parseFloatDecimal_one : parseFloatDecimal "1" = some 1 := by
  rw [parseFloatDecimal, show readDecimal "1".data = some (false, 1, 0) by decide]
  norm_num [decimalValue]

theorem parseFloatDecimal_two : parseFloatDecimal "2" = some 2 := by
  rw [parseFloatDecimal, show readDecimal "2".data = some (false, 2, 0) by decide]
  norm_num [decimalValue]

theorem parseFloatDecimal_three : parseFloatDecimal "3" = some 3 := by
  rw [parseFloatDecimal, show readDecimal "3".data = some (false, 3, 0) by decide]
  norm_num [decimalValue]

theorem parseFloatDecimal_five : parseFloatDecimal "5" = some 5 := by
  rw [parseFloatDecimal, show readDecimal "5".data = some (false, 5, 0) by decide]
  norm_num [decimalValue]

theorem parseFloatDecimal_two_and_half : parseFloatDecimal "2.5" = some (5 / 2) := by
  rw [parseFloatDecimal, show readDecimal "2.5".data = some (false, 25, 1) by decide]
  norm_num [decimalValue]

theorem parseFloatDecimal_empty : parseFloatDecimal "" = none := by decide


/-! ## Map literals -/

theorem mem_foldl_insert {V : Type} (l : List (String × V)) (m : GoMap V) (k : String) :
    k ∈ l.foldl (fun m kv => m.insert kv.1 kv.2) m ↔ k ∈ m ∨ k ∈ l.map Prod.fst := by
  induction l generalizing m with
  | nil => simp
  | cons kv l ih =>
    rw [List.foldl_cons, ih, Finmap.mem_insert, List.map_cons, List.mem_cons]
    constructor
    · rintro ((h | h) | h)
      · exact Or.inr (Or.inl h)
      · exact Or.inl h
      · exact Or.inr (Or.inr h)
    · rintro (h | h | h)
      · exact Or.inl (Or.inr h)
      · exact Or.inl (Or.inl h)
      · exact Or.inr h

theorem keys_ofList {V : Type} (l : List (String × V)) :
    (GoMap.ofList l).keys = (l.map Prod.fst).toFinset := by
  ext k
  rw [Finmap.mem_keys, List.mem_toFinset, GoMap.ofList, mem_foldl_insert]
  constructor
  · rintro (h | h)
    · exact absurd h Finmap.not_mem_empty
    · exact h
  · exact Or.inr

theorem lookup_foldl_insert_of_not_mem {V : Type} (l : List (String × V)) (m : GoMap V)
    (k : String) (h : k ∉ l.map Prod.fst) :
    (l.foldl (fun m kv => m.insert kv.1 kv.2) m).lookup k = m.lookup k := by
  induction l generalizing m with
  | nil => rfl
  | cons kv l ih =>
    have h1 : k ≠ kv.1 := fun e => h (by simp [e])
    have h2 : k ∉ l.map Prod.fst := fun e => h (by simp [e])
    rw [List.foldl_cons, ih _ h2, Finmap.lookup_insert_of_ne m h1]

theorem mem_of_lookup_foldl_insert {V : Type} (l : List (String × V)) (m : GoMap V)
    (k : String) (v : V)
    (h : (l.foldl (fun m kv => m.insert kv.1 kv.2) m).lookup k = some v) :
    m.lookup k = some v ∨ (k, v) ∈ l := by
  induction l generalizing m with
  | nil => exact Or.inl h
  | cons kv l ih =>
    rw [List.foldl_cons] at h
    rcases ih _ h with h' | h'
    · by_cases e : k = kv.1
      · subst e
        rw [Finmap.lookup_insert] at h'
        right
        rw [← Option.some.inj h']
        exact List.mem_cons_self _ _
      · rw [Finmap.lookup_insert_of_ne m e] at h'
        exact Or.inl h'
    · exact Or.inr (List.mem_cons_of_mem _ h')

theorem mem_of_lookup_ofList {V : Type} (l : List (String × V)) (k : String) (v : V)
    (h : (GoMap.ofList l).lookup k = some v) : (k, v) ∈ l := by
  rcases mem_of_lookup_foldl_insert l ∅ k v h with h' | h'
  · rw [Finmap.lookup_empty] at h'
    exact Option.noConfusion h'
  · exact h'

theorem lookup_foldl_insert_of_mem {V : Type} (l : List (String × V)) (m : GoMap V)
    (k : String) (v : V) (hnd : (l.map Prod.fst).Nodup) (h : (k, v) ∈ l) :
    (l.foldl (fun m kv => m.insert kv.1 kv.2) m).lookup k = some v := by
  induction l generalizing m with
  | nil => simp at h
  | cons kv l ih =>
    rw [List.map_cons, List.nodup_cons] at hnd
    rw [List.foldl_cons]
    rcases List.mem_cons.1 h with e | e
    · subst e
      rw [lookup_foldl_insert_of_not_mem l _ k hnd.1]
      exact Finmap.lookup_insert m
    · exact ih _ hnd.2 e

theorem lookup_ofList_of_mem {V : Type} (l : List (String × V)) (k : String) (v : V)
    (hnd : (l.map Prod.fst).Nodup) (h : (k, v) ∈ l) : (GoMap.ofList l).lookup k = some v :=
  lookup_foldl_insert_of_mem l ∅ k v hnd h

theorem lookup_foldl_insert_map {V W : Type} (f : V → W) (l : List (String × V))
    (m : GoMap V) (m' : GoMap W) (k : String) (h : m'.lookup k = (m.lookup k).map f) :
    ((l.map fun kv => (kv.1, f kv.2)).foldl (fun m kv => m.insert kv.1 kv.2) m').lookup k =
      ((l.foldl (fun m kv => m.insert kv.1 kv.2) m).lookup k).map f := by
  induction l generalizing m m' with
  | nil => exact h
  | cons kv l ih =>
    rw [List.map_cons, List.foldl_cons, List.foldl_cons]
    apply ih
    by_cases e : k = kv.1
    · subst e
      rw [Finmap.lookup_insert, Finmap.lookup_insert]
      rfl
    · rw [Finmap.lookup_insert_of_ne m' e, Finmap.lookup_insert_of_ne m e]
      exact h

theorem lookup_ofList_map {V W : Type} (f : V → W) (l : List (String × V)) (k : String) :
    (GoMap.ofList (l.map fun kv => (kv.1, f kv.2))).lookup k =
      ((GoMap.ofList l).lookup k).map f :=
  lookup_foldl_insert_map f l ∅ ∅ k (by simp)

/-! ## The graph catalogue -/

/-- The graph keys, in source order. -/
theorem graphTable_keys (labelPrefix : String) :
    (graphTable labelPrefix).map Prod.fst =
      ["dnsupdate", "notifications", "packetcache", "query-cache", "cache-size", "fails",
        "backend", "tcp-connection", "signatures", "latency", "qsize", "answers", "queries",
        "answer-bytes", "memory", "cpu"] := rfl

theorem graphTable_keys_nodup (labelPrefix : String) :
    ((graphTable labelPrefix).map Prod.fst).Nodup := by
  rw [graphTable_keys]
  decide

/-- Apart from the labels the table does not depend on the prefix. -/
theorem graphTable_shape (a b : String) :
    ((graphTable a).map fun kv => (kv.1, kv.2.shape)) =
      (graphTable b).map fun kv => (kv.1, kv.2.shape) := rfl

theorem graphTable_stacked (labelPrefix : String) :
    ∀ kv ∈ graphTable labelPrefix, stackedInCompany kv.2.Metrics = true := by
  have h : ((graphTable labelPrefix).map fun kv => kv.2.Metrics).all stackedInCompany = true :=
    rfl
  intro kv hkv
  exact List.all_eq_true.1 h _ (List.mem_map.2 ⟨kv, hkv, rfl⟩)


/-! ## Claims about `FetchMetrics` -/

/-- C1. Every output that is a comma-joined sequence of fragments `name=value`, with no
`,` or `=` in a name, no `,` in a value and every value parsing as a float, makes
`FetchMetrics` return a nil error and a map whose key set is exactly the set of
names, each name mapped to the parsed number of the value of its last occurrence;
and `"a=1,b=2.5,c=3"` yields exactly `{a: 1, b: 2.5, c: 3}`. -/
theorem C1_well_formed_output :
    (∀ (V ε : Type) (pf : String → Option V) (u : Plugin) (kvs : List (String × String)),
      (∀ kv ∈ kvs, ',' ∉ kv.1.data ∧ '=' ∉ kv.1.data ∧ ',' ∉ kv.2.data ∧
        (pf kv.2).isSome = true) →
      ∃ m : GoMap V,
        FetchMetrics
            (stubOutput (commaJoin (kvs.map pair)) : String → List String → String × Option ε)
            pf u = (some m, none) ∧
          m.keys = (kvs.map Prod.fst).toFinset ∧
          ∀ (pre post : List (String × String)) (k v : String),
            kvs = pre ++ (k, v) :: post → k ∉ post.map Prod.fst → m.lookup k = pf v) ∧
    ∀ u : Plugin,
      FetchMetrics (stubOutput "a=1,b=2.5,c=3" : String → List String → String × Option String)
          parseFloatDecimal u =
        (some (GoMap.ofList [("a", 1), ("b", 5 / 2), ("c", 3)]), none) := by
  refine ⟨?_, ?_⟩
  · intro V ε pf u kvs hwf
    refine ⟨FetchMetrics.parse pf (commaJoin (kvs.map pair)), rfl, ?_, ?_⟩
    · -- the key set
      by_cases hnil : kvs = []
      · subst hnil
        have : commaJoin (List.map pair []) = "" := rfl
        rw [this, parse_empty]
        rfl
      · have hsplit : Split (commaJoin (kvs.map pair)) ',' = kvs.map pair := by
          apply Split_commaJoin
          · simpa using hnil
          · intro b hb
            obtain ⟨kv, hkv, rfl⟩ := List.mem_map.1 hb
            obtain ⟨h1, _, h3, _⟩ := hwf kv hkv
            simp only [pair, String.data_append, List.mem_append, not_or]
            exact ⟨⟨h1, by decide⟩, h3⟩
        ext k
        rw [Finmap.mem_keys, List.mem_toFinset, FetchMetrics.parse, hsplit, mem_foldl_step]
        constructor
        · rintro (h | ⟨b, hb, f, hf⟩)
          · exact absurd h Finmap.not_mem_empty
          · obtain ⟨kv, hkv, rfl⟩ := List.mem_map.1 hb
            obtain ⟨_, h2, _, _⟩ := hwf kv hkv
            rw [show kv = (kv.1, kv.2) from rfl, entryOf_pair pf kv.1 kv.2 h2] at hf
            simp only [Option.map_eq_some', Prod.mk.injEq] at hf
            obtain ⟨_, _, hk, _⟩ := hf
            exact List.mem_map.2 ⟨kv, hkv, hk⟩
        · intro hk
          obtain ⟨kv, hkv, rfl⟩ := List.mem_map.1 hk
          obtain ⟨_, h2, _, h4⟩ := hwf kv hkv
          obtain ⟨f, hf⟩ := Option.isSome_iff_exists.1 h4
          refine Or.inr ⟨pair kv, List.mem_map.2 ⟨kv, hkv, rfl⟩, f, ?_⟩
          rw [show kv = (kv.1, kv.2) from rfl, entryOf_pair pf kv.1 kv.2 h2, hf]
          rfl
    · -- the value of the last occurrence
      intro pre post k v hkvs hlast
      have hnil : kvs.map pair ≠ [] := by
        rw [hkvs]
        simp
      have hsplit : Split (commaJoin (kvs.map pair)) ',' = kvs.map pair := by
        apply Split_commaJoin _ hnil
        intro b hb
        obtain ⟨kv, hkv, rfl⟩ := List.mem_map.1 hb
        obtain ⟨h1, _, h3, _⟩ := hwf kv hkv
        simp only [pair, String.data_append, List.mem_append, not_or]
        exact ⟨⟨h1, by decide⟩, h3⟩
      have hmem : (k, v) ∈ kvs := by
        rw [hkvs]
        simp
      obtain ⟨_, h2, _, h4⟩ := hwf (k, v) hmem
      obtain ⟨f, hf⟩ := Option.isSome_iff_exists.1 h4
      rw [FetchMetrics.parse, hsplit, hkvs, List.map_append, List.map_cons, hf]
      apply lookup_foldl_last pf k f
      · rw [entryOf_pair pf k v h2, hf]
        rfl
      · intro b' hb' f' he
        obtain ⟨kv, hkv, rfl⟩ := List.mem_map.1 hb'
        have hkv' : kv ∈ kvs := by
          rw [hkvs]
          exact List.mem_append_right _ (List.mem_cons_of_mem _ hkv)
        obtain ⟨_, h2', _, _⟩ := hwf kv hkv'
        rw [show kv = (kv.1, kv.2) from rfl, entryOf_pair pf kv.1 kv.2 h2'] at he
        simp only [Option.map_eq_some', Prod.mk.injEq] at he
        obtain ⟨_, _, hk, _⟩ := he
        exact hlast (List.mem_map.2 ⟨kv, hkv, hk⟩)
  · intro u
    rw [FetchMetrics_stub]
    simp only [FetchMetrics.parse,
      show Split "a=1,b=2.5,c=3" ',' = ["a=1", "b=2.5", "c=3"] by decide,
      List.foldl_cons, List.foldl_nil, FetchMetrics.step,
      show SplitN "a=1" '=' 2 = ["a", "1"] by decide,
      show SplitN "b=2.5" '=' 2 = ["b", "2.5"] by decide,
      show SplitN "c=3" '=' 2 = ["c", "3"] by decide,
      parseFloatDecimal_one, parseFloatDecimal_two_and_half, parseFloatDecimal_three]
    rfl

/-- Witness of C1 at the sequence `a=1`, `b=2.5`, `c=3` with the reference parser. -/
theorem C1_well_formed_output_witness :
    (∀ kv ∈ [("a", "1"), ("b", "2.5"), ("c", "3")],
        ',' ∉ kv.1.data ∧ '=' ∉ kv.1.data ∧ ',' ∉ kv.2.data ∧
          (parseFloatDecimal kv.2).isSome = true) ∧
      ∃ m : GoMap ℚ,
        FetchMetrics
            (stubOutput (commaJoin ([("a", "1"), ("b", "2.5"), ("c", "3")].map pair)) :
              String → List String → String × Option String)
            parseFloatDecimal (Plugin.mk "pdns" "/usr/bin/pdns_control") = (some m, none) ∧
          m.keys = ([("a", "1"), ("b", "2.5"), ("c", "3")].map Prod.fst).toFinset ∧
          ∀ (pre post : List (String × String)) (k v : String),
            [("a", "1"), ("b", "2.5"), ("c", "3")] = pre ++ (k, v) :: post →
              k ∉ post.map Prod.fst → m.lookup k = parseFloatDecimal v :=
  have h : ∀ kv ∈ [("a", "1"), ("b", "2.5"), ("c", "3")],
      ',' ∉ kv.1.data ∧ '=' ∉ kv.1.data ∧ ',' ∉ kv.2.data ∧
        (parseFloatDecimal kv.2).isSome = true := by decide
  ⟨h, C1_well_formed_output.1 ℚ String parseFloatDecimal
    (Plugin.mk "pdns" "/usr/bin/pdns_control") [("a", "1"), ("b", "2.5"), ("c", "3")] h⟩


/-- C2. A comma-delimited fragment that has no `=`, or whose text after its first `=`
does not parse as a float, contributes nothing and raises no error: `FetchMetrics`
on an output equals `FetchMetrics` on the output with all such fragments removed,
and the error is nil; `"a=1,garbage,b=,c=2"` yields exactly `{a: 1, c: 2}`. -/
theorem C2_malformed_fragments_dropped :
    (∀ (V ε : Type) (pf : String → Option V) (u : Plugin) (out : String),
      FetchMetrics
          (stubOutput (commaJoin ((Split out ',').filter fun b => !malformed pf b)) :
            String → List String → String × Option ε) pf u =
        FetchMetrics (stubOutput out) pf u ∧
      (FetchMetrics (stubOutput out : String → List String → String × Option ε) pf u).2 =
        none) ∧
    ∀ u : Plugin,
      FetchMetrics
          (stubOutput "a=1,garbage,b=,c=2" : String → List String → String × Option String)
          parseFloatDecimal u =
        (some (GoMap.ofList [("a", 1), ("c", 2)]), none) := by
  refine ⟨?_, ?_⟩
  · intro V ε pf u out
    refine ⟨?_, rfl⟩
    rw [FetchMetrics_stub, FetchMetrics_stub]
    congr 2
    have hall : FetchMetrics.parse pf out =
        ((Split out ',').filter fun b => !malformed pf b).foldl (FetchMetrics.step pf) ∅ :=
      (foldl_step_filter pf (Split out ',') ∅).symm
    rw [hall]
    by_cases hnil : ((Split out ',').filter fun b => !malformed pf b) = []
    · rw [hnil]
      exact parse_empty pf
    · rw [FetchMetrics.parse, Split_commaJoin _ hnil]
      intro b hb
      exact not_mem_of_mem_Split out b (List.mem_of_mem_filter hb)
  · intro u
    rw [FetchMetrics_stub]
    simp only [FetchMetrics.parse,
      show Split "a=1,garbage,b=,c=2" ',' = ["a=1", "garbage", "b=", "c=2"] by decide,
      List.foldl_cons, List.foldl_nil, FetchMetrics.step,
      show SplitN "a=1" '=' 2 = ["a", "1"] by decide,
      show SplitN "garbage" '=' 2 = ["garbage"] by decide,
      show SplitN "b=" '=' 2 = ["b", ""] by decide,
      show SplitN "c=2" '=' 2 = ["c", "2"] by decide,
      parseFloatDecimal_one, parseFloatDecimal_empty, parseFloatDecimal_two]
    rfl

/-- C3, the claim as stated fails: the fragment `=5` has an empty name part, yet
`FetchMetrics` on the output `"=5"` returns the map `{"": 5}`, which has the empty
string as a key. -/
theorem C3_empty_name_counterexample :
    FetchMetrics (stubOutput "=5" : String → List String → String × Option String)
        parseFloatDecimal (Plugin.mk "pdns" "/usr/bin/pdns_control") =
      (some (GoMap.ofList [("", 5)]), none) ∧
    "" ∈ GoMap.ofList [("", (5 : ℚ))] := by
  refine ⟨?_, ?_⟩
  · rw [FetchMetrics_stub]
    simp only [FetchMetrics.parse, show Split "=5" ',' = ["=5"] by decide,
      List.foldl_cons, List.foldl_nil, FetchMetrics.step,
      show SplitN "=5" '=' 2 = ["", "5"] by decide, parseFloatDecimal_five]
    rfl
  · show "" ∈ Finmap.insert "" (5 : ℚ) ∅
    exact Finmap.mem_insert.2 (Or.inl rfl)

/-- C3, amended. For every captured output the error is nil and a string `k`, empty or
not, is a key of the result exactly when some comma-delimited fragment contains
`=`, has `k` as the text before its first `=` and has a text after it that
parses as a float. So a fragment without `=` adds no key, and neither does a
fragment whose text after the first `=` is empty, as the empty text does not parse;
an empty name is stored: `"=5"` yields exactly `{"": 5}`. -/
theorem C3_keys_of_result :
    (∀ (V ε : Type) (pf : String → Option V) (u : Plugin) (out k : String),
      ∃ m : GoMap V,
        FetchMetrics (stubOutput out : String → List String → String × Option ε) pf u =
            (some m, none) ∧
          (k ∈ m ↔ ∃ b ∈ Split out ',',
            '=' ∈ b.data ∧ textBefore '=' b = k ∧ (pf (textAfter '=' b)).isSome = true)) ∧
    (∀ (V ε : Type) (pf : String → Option V) (u : Plugin) (out k : String) (m : GoMap V),
      pf "" = none →
      FetchMetrics (stubOutput out : String → List String → String × Option ε) pf u =
        (some m, none) →
      k ∈ m →
      ∃ b ∈ Split out ',', '=' ∈ b.data ∧ textBefore '=' b = k ∧ textAfter '=' b ≠ "") ∧
    ∀ u : Plugin,
      FetchMetrics (stubOutput "=5" : String → List String → String × Option String)
          parseFloatDecimal u =
        (some (GoMap.ofList [("", 5)]), none) := by
  have key : ∀ (V : Type) (pf : String → Option V) (out k : String),
      k ∈ FetchMetrics.parse pf out ↔ ∃ b ∈ Split out ',',
        '=' ∈ b.data ∧ textBefore '=' b = k ∧ (pf (textAfter '=' b)).isSome = true := by
    intro V pf out k
    rw [FetchMetrics.parse, mem_foldl_step]
    constructor
    · rintro (h | ⟨b, hb, f, hf⟩)
      · exact absurd h Finmap.not_mem_empty
      · obtain ⟨h1, h2, h3⟩ := entryOf_eq_some pf b k f hf
        exact ⟨b, hb, h1, h2, by rw [h3]; rfl⟩
    · rintro ⟨b, hb, h1, h2, h3⟩
      obtain ⟨f, hf⟩ := Option.isSome_iff_exists.1 h3
      refine Or.inr ⟨b, hb, f, ?_⟩
      simp only [entryOf, h1, if_true, hf, h2, Option.map_some']
  refine ⟨?_, ?_, ?_⟩
  · intro V ε pf u out k
    exact ⟨FetchMetrics.parse pf out, rfl, key V pf out k⟩
  · intro V ε pf u out k m hpf hm hk
    rw [FetchMetrics_stub] at hm
    have hm' : FetchMetrics.parse pf out = m := Option.some.inj (Prod.mk.inj hm).1
    rw [← hm'] at hk
    obtain ⟨b, hb, h1, h2, h3⟩ := (key V pf out k).1 hk
    refine ⟨b, hb, h1, h2, ?_⟩
    intro he
    rw [he, hpf] at h3
    exact Bool.noConfusion h3
  · intro u
    rw [FetchMetrics_stub]
    simp only [FetchMetrics.parse, show Split "=5" ',' = ["=5"] by decide,
      List.foldl_cons, List.foldl_nil, FetchMetrics.step,
      show SplitN "=5" '=' 2 = ["", "5"] by decide, parseFloatDecimal_five]
    rfl

/-- Witness of C3 at the output `"a=1,b="` with the reference parser: the key `a` comes
from the fragment `a=1`, whose value part is not empty. -/
theorem C3_keys_of_result_witness :
    parseFloatDecimal "" = none ∧
      FetchMetrics (stubOutput "a=1,b=" : String → List String → String × Option String)
          parseFloatDecimal (Plugin.mk "pdns" "/usr/bin/pdns_control") =
        (some (GoMap.ofList [("a", 1)]), none) ∧
      "a" ∈ GoMap.ofList [("a", (1 : ℚ))] ∧
      ∃ b ∈ Split "a=1,b=" ',', '=' ∈ b.data ∧ textBefore '=' b = "a" ∧ textAfter '=' b ≠ "" :=
  have hm : FetchMetrics (stubOutput "a=1,b=" : String → List String → String × Option String)
      parseFloatDecimal (Plugin.mk "pdns" "/usr/bin/pdns_control") =
      (some (GoMap.ofList [("a", 1)]), none) := by
    rw [FetchMetrics_stub]
    simp only [FetchMetrics.parse, show Split "a=1,b=" ',' = ["a=1", "b="] by decide,
      List.foldl_cons, List.foldl_nil, FetchMetrics.step,
      show SplitN "a=1" '=' 2 = ["a", "1"] by decide,
      show SplitN "b=" '=' 2 = ["b", ""] by decide,
      parseFloatDecimal_one, parseFloatDecimal_empty]
    rfl
  have hk : "a" ∈ GoMap.ofList [("a", (1 : ℚ))] :=
    (Finmap.mem_insert (s := ∅)).2 (Or.inl rfl)
  ⟨parseFloatDecimal_empty, hm, hk,
    C3_keys_of_result.2.1 ℚ String parseFloatDecimal (Plugin.mk "pdns" "/usr/bin/pdns_control")
      "a=1,b=" "a" _ parseFloatDecimal_empty hm hk⟩

/-- C4. When a name occurs in more than one parseable fragment, `FetchMetrics` maps it
to the value of the last such fragment in text order: if the fragments of the
output are `pre`, then `name=v` with `v` parsing to `x`, then `post`, and no
fragment `name=w` of `post` parses, the result maps `name` to `x`; and
`"a=1,a=2"` yields exactly `{a: 2}`. -/
theorem C4_last_write_wins :
    (∀ (V ε : Type) (pf : String → Option V) (u : Plugin) (out : String)
        (pre post : List String) (name v : String) (x : V),
      Split out ',' = pre ++ pair (name, v) :: post → '=' ∉ name.data → pf v = some x →
      (∀ w, pair (name, w) ∈ post → pf w = none) →
      ∃ m : GoMap V,
        FetchMetrics (stubOutput out : String → List String → String × Option ε) pf u =
            (some m, none) ∧
          m.lookup name = some x) ∧
    ∀ u : Plugin,
      FetchMetrics (stubOutput "a=1,a=2" : String → List String → String × Option String)
          parseFloatDecimal u =
        (some (GoMap.ofList [("a", 2)]), none) := by
  refine ⟨?_, ?_⟩
  · intro V ε pf u out pre post name v x hsplit hname hv hpost
    refine ⟨FetchMetrics.parse pf out, rfl, ?_⟩
    rw [FetchMetrics.parse, hsplit]
    apply lookup_foldl_last pf name x
    · rw [entryOf_pair pf name v hname, hv]
      rfl
    · intro b' hb' f' he
      obtain ⟨h1, h2, h3⟩ := entryOf_eq_some pf b' name f' he
      have hb : pair (name, textAfter '=' b') = b' := by
        rw [← h2]
        exact pair_textBefore_textAfter b' h1
      have := hpost (textAfter '=' b') (by rw [hb]; exact hb')
      rw [this] at h3
      exact Option.noConfusion h3
  · intro u
    rw [FetchMetrics_stub]
    simp only [FetchMetrics.parse, show Split "a=1,a=2" ',' = ["a=1", "a=2"] by decide,
      List.foldl_cons, List.foldl_nil, FetchMetrics.step,
      show SplitN "a=1" '=' 2 = ["a", "1"] by decide,
      show SplitN "a=2" '=' 2 = ["a", "2"] by decide,
      parseFloatDecimal_one, parseFloatDecimal_two]
    rw [Finmap.insert_insert]
    rfl

/-- Witness of C4 at the output `"a=1,a=2,b=7"`: the last fragment for `a` is `a=2`. -/
theorem C4_last_write_wins_witness :
    Split "a=1,a=2,b=7" ',' = ["a=1"] ++ pair ("a", "2") :: ["b=7"] ∧
      '=' ∉ "a".data ∧ parseFloatDecimal "2" = some 2 ∧
      (∀ w, pair ("a", w) ∈ ["b=7"] → parseFloatDecimal w = none) ∧
      ∃ m : GoMap ℚ,
        FetchMetrics (stubOutput "a=1,a=2,b=7" : String → List String → String × Option String)
            parseFloatDecimal (Plugin.mk "pdns" "/usr/bin/pdns_control") = (some m, none) ∧
          m.lookup "a" = some 2 :=
  have h1 : Split "a=1,a=2,b=7" ',' = ["a=1"] ++ pair ("a", "2") :: ["b=7"] := by decide
  have h2 : '=' ∉ "a".data := by decide
  have h3 : ∀ w, pair ("a", w) ∈ ["b=7"] → parseFloatDecimal w = none := by
    intro w hw
    have e := congrArg String.data (List.mem_singleton.1 hw)
    simp [pair, String.data_append] at e
  ⟨h1, h2, parseFloatDecimal_two, h3,
    C4_last_write_wins.1 ℚ String parseFloatDecimal (Plugin.mk "pdns" "/usr/bin/pdns_control")
      "a=1,a=2,b=7" ["a=1"] ["b=7"] "a" "2" 2 h1 h2 parseFloatDecimal_two h3⟩


/-- C5. When the control command succeeds with empty standard output, `FetchMetrics`
returns a non-nil map with no entry and a nil error. -/
theorem C5_empty_output (V ε : Type) (Output : String → List String → String × Option ε)
    (pf : String → Option V) (u : Plugin)
    (h : Output u.CommandPath ["show", "*"] = ("", none)) :
    FetchMetrics Output pf u = (some ∅, none) ∧ (∅ : GoMap V).keys.card = 0 := by
  refine ⟨?_, rfl⟩
  unfold FetchMetrics
  rw [h]
  show (some (FetchMetrics.parse pf ""), none) = (some ∅, none)
  rw [parse_empty]

/-- Witness of C5 with the stub command that prints nothing. -/
theorem C5_empty_output_witness :
    (stubOutput "" : String → List String → String × Option String)
        (Plugin.mk "pdns" "/usr/bin/pdns_control").CommandPath ["show", "*"] = ("", none) ∧
      FetchMetrics (stubOutput "" : String → List String → String × Option String)
          parseFloatDecimal (Plugin.mk "pdns" "/usr/bin/pdns_control") = (some ∅, none) ∧
      (∅ : GoMap ℚ).keys.card = 0 :=
  ⟨rfl, C5_empty_output ℚ String (stubOutput "") parseFloatDecimal
    (Plugin.mk "pdns" "/usr/bin/pdns_control") rfl⟩

/-- C6. `FetchMetrics` returns an error if and only if running the control command
returned one, and then it returns that same error with a nil map, whatever
output was captured. -/
theorem C6_error_iff_command_error (V ε : Type)
    (Output : String → List String → String × Option ε) (pf : String → Option V)
    (u : Plugin) :
    ((FetchMetrics Output pf u).2 ≠ none ↔ (Output u.CommandPath ["show", "*"]).2 ≠ none) ∧
      ∀ (buf : String) (err : ε), Output u.CommandPath ["show", "*"] = (buf, some err) →
        FetchMetrics Output pf u = (none, some err) := by
  unfold FetchMetrics
  constructor
  · rcases h : Output u.CommandPath ["show", "*"] with ⟨buf, _ | err⟩ <;> simp
  · intro buf err h
    rw [h]

/-- Witness of C6: the command fails with exit status 1 after printing `a=1`. -/
theorem C6_error_iff_command_error_witness :
    (fun (_ : String) (_ : List String) => ("a=1", some "exit status 1"))
        (Plugin.mk "pdns" "/usr/bin/pdns_control").CommandPath ["show", "*"] =
        ("a=1", some "exit status 1") ∧
      FetchMetrics (fun _ _ => ("a=1", some "exit status 1")) parseFloatDecimal
        (Plugin.mk "pdns" "/usr/bin/pdns_control") = (none, some "exit status 1") :=
  ⟨rfl, (C6_error_iff_command_error ℚ String (fun _ _ => ("a=1", some "exit status 1"))
    parseFloatDecimal (Plugin.mk "pdns" "/usr/bin/pdns_control")).2 "a=1" "exit status 1" rfl⟩


/-! ## Claims about `GraphDefinition` -/

/-- C7. For every two prefixes the maps returned by `GraphDefinition` have the same set
of graph keys and, under every key, the same unit and the same ordered list of
metrics (name, label, Diff, Stacked); only the graph labels may differ. -/
theorem C7_prefix_changes_labels_only (Title : String → String) (p q : Plugin) :
    (GraphDefinition Title p).keys = (GraphDefinition Title q).keys ∧
      ∀ k : String,
        ((GraphDefinition Title p).lookup k).map Graphs.shape =
          ((GraphDefinition Title q).lookup k).map Graphs.shape := by
  constructor
  · simp only [GraphDefinition, keys_ofList, graphTable_keys]
  · intro k
    simp only [GraphDefinition]
    rw [← lookup_ofList_map Graphs.shape, ← lookup_ofList_map Graphs.shape,
      graphTable_shape (Title p.Prefix) (Title q.Prefix)]

/-- C8, the claim as stated fails: with the prefix `"pdns"` the map returned by
`GraphDefinition` does not have 14 keys, whatever `strings.Title` returns. -/
theorem C8_fourteen_keys_counterexample :
    ¬ ∃ Title : String → String,
      (GraphDefinition Title (Plugin.mk "pdns" "/usr/bin/pdns_control")).keys.card = 14 := by
  rintro ⟨Title, h⟩
  simp only [GraphDefinition, keys_ofList, graphTable_keys] at h
  revert h
  decide

/-- C8, amended. For every prefix, the map returned by `GraphDefinition` has exactly 16
graph keys: dnsupdate, notifications, packetcache, query-cache, cache-size, fails,
backend, tcp-connection, signatures, latency, qsize, answers, queries,
answer-bytes, memory and cpu. -/
theorem C8_sixteen_keys (Title : String → String) (p : Plugin) :
    (GraphDefinition Title p).keys.card = 16 ∧
      (GraphDefinition Title p).keys =
        {"dnsupdate", "notifications", "packetcache", "query-cache", "cache-size", "fails",
          "backend", "tcp-connection", "signatures", "latency", "qsize", "answers", "queries",
          "answer-bytes", "memory", "cpu"} := by
  simp only [GraphDefinition, keys_ofList, graphTable_keys]
  constructor <;> decide

/-- C9. In the graphs `answers`, `queries` and `answer-bytes` the four metrics for tcp4,
udp4, tcp6 and udp6 have `Stacked = true` and the two protocol totals (tcp, udp)
have `Stacked = false`: the metric names of each graph with their Stacked flags
are as listed. -/
theorem C9_stacked_breakdown (Title : String → String) (p : Plugin) :
    ((GraphDefinition Title p).lookup "answers").map
        (fun g => g.Metrics.map fun m => (m.Name, m.Stacked)) =
      some [("tcp-answers", false), ("udp-answers", false), ("tcp4-answers", true),
        ("udp4-answers", true), ("tcp6-answers", true), ("udp6-answers", true)] ∧
    ((GraphDefinition Title p).lookup "queries").map
        (fun g => g.Metrics.map fun m => (m.Name, m.Stacked)) =
      some [("tcp-queries", false), ("udp-queries", false), ("tcp4-queries", true),
        ("udp4-queries", true), ("tcp6-queries", true), ("udp6-queries", true),
        ("udp-do-queries", false)] ∧
    ((GraphDefinition Title p).lookup "answer-bytes").map
        (fun g => g.Metrics.map fun m => (m.Name, m.Stacked)) =
      some [("tcp-answers-bytes", false), ("udp-answers-bytes", false),
        ("tcp4-answers-bytes", true), ("udp4-answers-bytes", true),
        ("tcp6-answers-bytes", true), ("udp6-answers-bytes", true)] := by
  have hnd := graphTable_keys_nodup (Title p.Prefix)
  have h11 : ∃ g, (graphTable (Title p.Prefix))[11]? = some ("answers", g) ∧
      (g.Metrics.map fun m => (m.Name, m.Stacked)) =
        [("tcp-answers", false), ("udp-answers", false), ("tcp4-answers", true),
          ("udp4-answers", true), ("tcp6-answers", true), ("udp6-answers", true)] :=
    ⟨_, rfl, rfl⟩
  have h12 : ∃ g, (graphTable (Title p.Prefix))[12]? = some ("queries", g) ∧
      (g.Metrics.map fun m => (m.Name, m.Stacked)) =
        [("tcp-queries", false), ("udp-queries", false), ("tcp4-queries", true),
          ("udp4-queries", true), ("tcp6-queries", true), ("udp6-queries", true),
          ("udp-do-queries", false)] :=
    ⟨_, rfl, rfl⟩
  have h13 : ∃ g, (graphTable (Title p.Prefix))[13]? = some ("answer-bytes", g) ∧
      (g.Metrics.map fun m => (m.Name, m.Stacked)) =
        [("tcp-answers-bytes", false), ("udp-answers-bytes", false),
          ("tcp4-answers-bytes", true), ("udp4-answers-bytes", true),
          ("tcp6-answers-bytes", true), ("udp6-answers-bytes", true)] :=
    ⟨_, rfl, rfl⟩
  obtain ⟨g1, hg1, hm1⟩ := h11
  obtain ⟨g2, hg2, hm2⟩ := h12
  obtain ⟨g3, hg3, hm3⟩ := h13
  simp only [GraphDefinition]
  rw [lookup_ofList_of_mem _ "answers" g1 hnd (List.getElem?_mem hg1),
    lookup_ofList_of_mem _ "queries" g2 hnd (List.getElem?_mem hg2),
    lookup_ofList_of_mem _ "answer-bytes" g3 hnd (List.getElem?_mem hg3)]
  simp only [Option.map_some', hm1, hm2, hm3, and_self]

/-- C10. In every graph returned by `GraphDefinition`, every metric with
`Stacked = true` has in the same graph another metric, of a different name, with
`Stacked = true`. -/
theorem C10_stacked_never_alone (Title : String → String) (p : Plugin) (k : String)
    (g : Graphs) (m : Metrics) (hg : (GraphDefinition Title p).lookup k = some g)
    (hm : m ∈ g.Metrics) (hs : m.Stacked = true) :
    ∃ m' ∈ g.Metrics, m'.Name ≠ m.Name ∧ m'.Stacked = true := by
  have hmem : (k, g) ∈ graphTable (Title p.Prefix) := mem_of_lookup_ofList _ k g hg
  have hall := graphTable_stacked (Title p.Prefix) (k, g) hmem
  have h1 := List.all_eq_true.1 hall m hm
  simp only [hs, Bool.not_true, Bool.false_or, List.any_eq_true, Bool.and_eq_true,
    decide_eq_true_eq] at h1
  exact h1

/-- Witness of C10: in the graph `packetcache` of the prefix `"pdns"`, titled `"Pdns"`,
the stacked metric `packetcache-hit` has the stacked sibling `packetcache-miss`. -/
theorem C10_stacked_never_alone_witness :
    (GraphDefinition (fun _ => "Pdns") (Plugin.mk "pdns" "/usr/bin/pdns_control")).lookup
        "packetcache" =
      some (Graphs.mk "Pdns: Packet Cache" "integer"
        [Metrics.mk "packetcache-hit" "Hits" true true,
          Metrics.mk "packetcache-miss" "Misses" true true]) ∧
    ∃ m' ∈ [Metrics.mk "packetcache-hit" "Hits" true true,
        Metrics.mk "packetcache-miss" "Misses" true true],
      m'.Name ≠ "packetcache-hit" ∧ m'.Stacked = true :=
  have hg : (GraphDefinition (fun _ => "Pdns")
      (Plugin.mk "pdns" "/usr/bin/pdns_control")).lookup "packetcache" =
      some (Graphs.mk "Pdns: Packet Cache" "integer"
        [Metrics.mk "packetcache-hit" "Hits" true true,
          Metrics.mk "packetcache-miss" "Misses" true true]) := by decide
  ⟨hg, C10_stacked_never_alone (fun _ => "Pdns") (Plugin.mk "pdns" "/usr/bin/pdns_control")
    "packetcache" _ (Metrics.mk "packetcache-hit" "Hits" true true) hg
    (List.mem_cons_self _ _) rfl⟩


/-! ## The graph catalogue, column by column -/

theorem mem_graphTable_of_lookup (Title : String → String) (p : Plugin) (k : String)
    (g : Graphs) (hg : (GraphDefinition Title p).lookup k = some g) :
    (k, g) ∈ graphTable (Title p.Prefix) :=
  mem_of_lookup_ofList _ k g hg

theorem lookup_of_mem_graphTable (Title : String → String) (p : Plugin) (k : String)
    (g : Graphs) (h : (k, g) ∈ graphTable (Title p.Prefix)) :
    (GraphDefinition Title p).lookup k = some g :=
  lookup_ofList_of_mem _ k g (graphTable_keys_nodup _) h

/-- The metric lists do not depend on the prefix. -/
theorem graphTable_metrics (labelPrefix : String) :
    ((graphTable labelPrefix).map fun kv => kv.2.Metrics) =
      (graphTable "").map fun kv => kv.2.Metrics := rfl

/-- The units do not depend on the prefix. -/
theorem graphTable_units (labelPrefix : String) :
    ((graphTable labelPrefix).map fun kv => kv.2.Unit) =
      (graphTable "").map fun kv => kv.2.Unit := rfl

/-- Every label is the prefix, `": "` and the fixed title of the key. -/
theorem graphTable_labels (labelPrefix : String) :
    ((graphTable labelPrefix).map fun kv => (kv.1, kv.2.Label)) =
      graphTitles.map fun kt => (kt.1, labelPrefix ++ (": " ++ kt.2)) := rfl

theorem metrics_mem_column (labelPrefix : String) (kv : String × Graphs)
    (h : kv ∈ graphTable labelPrefix) :
    kv.2.Metrics ∈ (graphTable "").map fun kv => kv.2.Metrics := by
  rw [← graphTable_metrics labelPrefix]
  exact List.mem_map.2 ⟨kv, h, rfl⟩

theorem unit_mem_column (labelPrefix : String) (kv : String × Graphs)
    (h : kv ∈ graphTable labelPrefix) :
    kv.2.Unit ∈ (graphTable "").map fun kv => kv.2.Unit := by
  rw [← graphTable_units labelPrefix]
  exact List.mem_map.2 ⟨kv, h, rfl⟩

/-- A graph of the table for the empty prefix has a counterpart with the same key, unit
and metrics in the table for any prefix. -/
theorem graphTable_transfer (labelPrefix : String) (kv : String × Graphs)
    (h : kv ∈ graphTable "") :
    ∃ g, (kv.1, g) ∈ graphTable labelPrefix ∧ g.Unit = kv.2.Unit ∧ g.Metrics = kv.2.Metrics := by
  have h1 : (kv.1, kv.2.shape) ∈ (graphTable "").map fun kv => (kv.1, kv.2.shape) :=
    List.mem_map.2 ⟨kv, h, rfl⟩
  rw [graphTable_shape "" labelPrefix] at h1
  obtain ⟨kv', hkv', he⟩ := List.mem_map.1 h1
  simp only [Prod.mk.injEq, Graphs.shape] at he
  obtain ⟨hk, hu, hm⟩ := he
  refine ⟨kv'.2, ?_, hu, hm⟩
  rw [← hk]
  exact hkv'

theorem label_of_mem_graphTable (labelPrefix k : String) (g : Graphs)
    (h : (k, g) ∈ graphTable labelPrefix) :
    ∃ t, (k, t) ∈ graphTitles ∧ g.Label = labelPrefix ++ ": " ++ t := by
  have h1 : (k, g.Label) ∈ (graphTable labelPrefix).map fun kv => (kv.1, kv.2.Label) :=
    List.mem_map.2 ⟨(k, g), h, rfl⟩
  rw [graphTable_labels] at h1
  obtain ⟨kt, hkt, he⟩ := List.mem_map.1 h1
  simp only [Prod.mk.injEq] at he
  obtain ⟨hk, hl⟩ := he
  refine ⟨kt.2, ?_, ?_⟩
  · rw [← hk]
    exact hkt
  · rw [← hl, String.append_assoc]

theorem String_append_left_cancel (a b c : String) (h : a ++ b = a ++ c) : b = c := by
  have h' := congrArg String.data h
  simp only [String.data_append] at h'
  have h'' := List.append_cancel_left h'
  calc b = String.mk b.data := rfl
    _ = String.mk c.data := by rw [h'']
    _ = c := rfl

/-! ## Claims about the graph catalogue, continued -/

/-- C11. In the catalogue returned by `GraphDefinition` the gauge metrics (the four
cache sizes, real-memory-usage, latency, qsize-q, open-tcp-connections, fd-usage)
have `Diff = false` and every other metric has `Diff = true`; each gauge occurs in
the catalogue. -/
theorem C11_diff_flags (Title : String → String) (p : Plugin) :
    (∀ (k : String) (g : Graphs) (m : Metrics),
      (GraphDefinition Title p).lookup k = some g → m ∈ g.Metrics →
        (m.Name ∈ gaugeNames → m.Diff = false) ∧ (m.Name ∉ gaugeNames → m.Diff = true)) ∧
    ∀ n ∈ gaugeNames, ∃ (k : String) (g : Graphs) (m : Metrics),
      (GraphDefinition Title p).lookup k = some g ∧ m ∈ g.Metrics ∧ m.Name = n ∧
        m.Diff = false := by
  constructor
  · intro k g m hg hm
    have hcol := metrics_mem_column _ (k, g) (mem_graphTable_of_lookup Title p k g hg)
    have hall : ∀ ms ∈ (graphTable "").map (fun kv => kv.2.Metrics), ∀ m ∈ ms,
        (m.Name ∈ gaugeNames → m.Diff = false) ∧ (m.Name ∉ gaugeNames → m.Diff = true) := by
      decide
    exact hall _ hcol m hm
  · intro n hn
    have hall : ∀ n ∈ gaugeNames, ∃ kv ∈ graphTable "", ∃ m ∈ kv.2.Metrics,
        m.Name = n ∧ m.Diff = false := by decide
    obtain ⟨kv, hkv, m, hm, hname, hdiff⟩ := hall n hn
    obtain ⟨g, hg, _, hms⟩ := graphTable_transfer (Title p.Prefix) kv hkv
    exact ⟨kv.1, g, m, lookup_of_mem_graphTable Title p kv.1 g hg, hms ▸ hm, hname, hdiff⟩

/-- Witness of C11: with the prefix `"pdns"` the gauge `latency` of the graph `latency`
has `Diff = false`. -/
theorem C11_diff_flags_witness :
    (GraphDefinition (stringsTitle asciiOnly) (Plugin.mk "pdns" "/usr/bin/pdns_control")).lookup
        "latency" =
      some (Graphs.mk "Pdns: Latency (microseconds)" "integer"
        [Metrics.mk "latency" "Latency" false false]) ∧
    "latency" ∈ gaugeNames ∧ (Metrics.mk "latency" "Latency" false false).Diff = false :=
  have hg : (GraphDefinition (stringsTitle asciiOnly)
      (Plugin.mk "pdns" "/usr/bin/pdns_control")).lookup "latency" =
      some (Graphs.mk "Pdns: Latency (microseconds)" "integer"
        [Metrics.mk "latency" "Latency" false false]) := by decide
  have hn : "latency" ∈ gaugeNames := by decide
  ⟨hg, hn, ((C11_diff_flags (stringsTitle asciiOnly)
    (Plugin.mk "pdns" "/usr/bin/pdns_control")).1 "latency" _
    (Metrics.mk "latency" "Latency" false false) hg (List.mem_cons_self _ _)).1 hn⟩

/-- C12. For every prefix, every graph returned by `GraphDefinition` has `Unit` equal to
`"integer"` or to `"bytes"`. -/
theorem C12_units (Title : String → String) (p : Plugin) (k : String) (g : Graphs)
    (hg : (GraphDefinition Title p).lookup k = some g) :
    g.Unit = "integer" ∨ g.Unit = "bytes" := by
  have hcol := unit_mem_column _ (k, g) (mem_graphTable_of_lookup Title p k g hg)
  have hall : ∀ u ∈ (graphTable "").map (fun kv => kv.2.Unit),
      u = "integer" ∨ u = "bytes" := by decide
  exact hall _ hcol

/-- Witness of C12: with the prefix `"pdns"` the graph `memory` has the unit `"bytes"`. -/
theorem C12_units_witness :
    (GraphDefinition (stringsTitle asciiOnly) (Plugin.mk "pdns" "/usr/bin/pdns_control")).lookup
        "memory" =
      some (Graphs.mk "Pdns: Memory Usage" "bytes"
        [Metrics.mk "real-memory-usage" "Usage" false false]) ∧
    ((Graphs.mk "Pdns: Memory Usage" "bytes"
        [Metrics.mk "real-memory-usage" "Usage" false false]).Unit = "integer" ∨
      (Graphs.mk "Pdns: Memory Usage" "bytes"
        [Metrics.mk "real-memory-usage" "Usage" false false]).Unit = "bytes") :=
  have hg : (GraphDefinition (stringsTitle asciiOnly)
      (Plugin.mk "pdns" "/usr/bin/pdns_control")).lookup "memory" =
      some (Graphs.mk "Pdns: Memory Usage" "bytes"
        [Metrics.mk "real-memory-usage" "Usage" false false]) := by decide
  ⟨hg, C12_units (stringsTitle asciiOnly) (Plugin.mk "pdns" "/usr/bin/pdns_control")
    "memory" _ hg⟩

/-- C13. Within every graph returned by `GraphDefinition` the metric names are pairwise
distinct. -/
theorem C13_metric_names_distinct (Title : String → String) (p : Plugin) (k : String)
    (g : Graphs) (hg : (GraphDefinition Title p).lookup k = some g) :
    (g.Metrics.map Metrics.Name).Nodup := by
  have hcol := metrics_mem_column _ (k, g) (mem_graphTable_of_lookup Title p k g hg)
  have hall : ∀ ms ∈ (graphTable "").map (fun kv => kv.2.Metrics),
      (ms.map Metrics.Name).Nodup := by decide
  exact hall _ hcol

/-- Witness of C13: the two metric names of the graph `cpu` are distinct. -/
theorem C13_metric_names_distinct_witness :
    (GraphDefinition (stringsTitle asciiOnly) (Plugin.mk "pdns" "/usr/bin/pdns_control")).lookup
        "cpu" =
      some (Graphs.mk "Pdns: CPU Usage (milliseconds)" "integer"
        [Metrics.mk "user-msec" "User" true false,
          Metrics.mk "sys-msec" "System" true false]) ∧
    (([Metrics.mk "user-msec" "User" true false,
        Metrics.mk "sys-msec" "System" true false]).map Metrics.Name).Nodup :=
  have hg : (GraphDefinition (stringsTitle asciiOnly)
      (Plugin.mk "pdns" "/usr/bin/pdns_control")).lookup "cpu" =
      some (Graphs.mk "Pdns: CPU Usage (milliseconds)" "integer"
        [Metrics.mk "user-msec" "User" true false,
          Metrics.mk "sys-msec" "System" true false]) := by decide
  ⟨hg, C13_metric_names_distinct (stringsTitle asciiOnly)
    (Plugin.mk "pdns" "/usr/bin/pdns_control") "cpu" _ hg⟩


/-! ## Title-casing the prefix -/

theorem isSeparator_space (U : UnicodeTables) : isSeparator U ' ' = true := rfl

theorem titleRunes_of_no_separator (U : UnicodeTables) (cs : List Char)
    (h : ∀ c ∈ cs, isSeparator U c = false) (prev : Char) (hprev : isSeparator U prev = false) :
    titleRunes U prev cs = cs := by
  induction cs generalizing prev with
  | nil => rfl
  | cons c cs ih =>
    have hc : isSeparator U c = false := h c (List.mem_cons_self _ _)
    have hcs : ∀ d ∈ cs, isSeparator U d = false := fun d hd => h d (List.mem_cons_of_mem _ hd)
    simp only [titleRunes, hprev, ih hcs c hc]
    rfl

/-- On a text without separators `strings.Title` changes the first rune only. -/
theorem stringsTitle_of_no_separator (U : UnicodeTables) (s : String)
    (h : ∀ c ∈ s.data, isSeparator U c = false) : stringsTitle U s = upperFirst U s := by
  unfold stringsTitle upperFirst
  cases hs : s.data with
  | nil => rfl
  | cons c cs =>
    rw [hs] at h
    have hc : isSeparator U c = false := h c (List.mem_cons_self _ _)
    have hcs : ∀ d ∈ cs, isSeparator U d = false := fun d hd => h d (List.mem_cons_of_mem _ hd)
    simp only [titleRunes, isSeparator_space, if_true, titleRunes_of_no_separator U cs hcs c hc]

/-- C14, the claim as stated fails: with the prefix `"pdns-auth"` the label of the graph
`packetcache` is `"Pdns-Auth: Packet Cache"`, where the letter after the hyphen
is uppercased too, and not `"Pdns-auth: Packet Cache"`. -/
theorem C14_first_letter_counterexample :
    ((GraphDefinition (stringsTitle asciiOnly)
        (Plugin.mk "pdns-auth" "/usr/bin/pdns_control")).lookup "packetcache").map Graphs.Label =
      some "Pdns-Auth: Packet Cache" ∧
    upperFirst asciiOnly "pdns-auth" ++ ": " ++ "Packet Cache" = "Pdns-auth: Packet Cache" ∧
    "Pdns-Auth: Packet Cache" ≠ "Pdns-auth: Packet Cache" := by
  decide

/-- On ASCII the separators are the runes other than letters, digits and the underscore,
and title case is upper case. -/
theorem ascii_table :
    ∀ n, n < 128 →
      isSeparator asciiOnly (Char.ofNat n) =
          !((Char.ofNat n).isAlphanum || Char.ofNat n == '_') ∧
        ToTitle asciiOnly (Char.ofNat n) = (Char.ofNat n).toUpper := by
  decide

theorem isSeparator_ascii (U : UnicodeTables) (r : Char) (h : r.toNat ≤ 0x7F) :
    isSeparator U r = !(r.isAlphanum || r == '_') ∧ ToTitle U r = r.toUpper := by
  have h1 : isSeparator U r = isSeparator asciiOnly r := by
    simp only [isSeparator, h, if_true]
  have h2 : ToTitle U r = ToTitle asciiOnly r := by
    simp only [ToTitle, h, if_true]
  have h3 := ascii_table r.toNat (by omega)
  rw [Char.ofNat_toNat] at h3
  rw [h1, h2]
  exact h3

theorem isSeparator_above (U : UnicodeTables) (r : Char) (h : 0x7F < r.toNat) :
    isSeparator U r = (!(U.IsLetter r || U.IsDigit r) && U.IsSpace r) ∧
      ToTitle U r = U.ToTitle r := by
  have h' : ¬ r.toNat ≤ 0x7F := by omega
  constructor
  · simp only [isSeparator, h', if_false]
    cases U.IsLetter r <;> cases U.IsDigit r <;> simp
  · simp only [ToTitle, h', if_false]

theorem titleRunes_length (U : UnicodeTables) (cs : List Char) (prev : Char) :
    (titleRunes U prev cs).length = cs.length := by
  induction cs generalizing prev with
  | nil => rfl
  | cons c cs ih => simp [titleRunes, ih]

theorem titleRunes_getElem? (U : UnicodeTables) (cs : List Char) (prev : Char) (i : Nat)
    (c : Char) (h : cs[i]? = some c) :
    (titleRunes U prev cs)[i]? =
      some (if isSeparator U (match i with | 0 => prev | j + 1 => cs.getD j ' ') then ToTitle U c
        else c) := by
  induction cs generalizing prev i with
  | nil => simp at h
  | cons c₀ rest ih =>
    cases i with
    | zero =>
      simp only [List.getElem?_cons_zero, Option.some.injEq] at h
      subst h
      simp [titleRunes]
    | succ j =>
      simp only [List.getElem?_cons_succ] at h
      have := ih c₀ j h
      simp only [titleRunes, List.getElem?_cons_succ, this]
      cases j with
      | zero => simp
      | succ j' => simp

theorem stringsTitle_getElem? (U : UnicodeTables) (s : String) (i : Nat) (c : Char)
    (h : s.data[i]? = some c) :
    (stringsTitle U s).data[i]? =
      some (if isSeparator U (runeBefore s.data i) then ToTitle U c else c) := by
  have := titleRunes_getElem? U s.data ' ' i c h
  cases i <;> exact this

/-- C14, amended. For every prefix, the label of every graph returned by
`GraphDefinition` is `strings.Title` of the prefix followed by `": "` and the
graph's fixed title. `strings.Title` keeps the length of the text and replaces by
its title case every rune that starts the text or follows a separator, leaving
every other rune unchanged; a separator is an ASCII rune other than a letter, a
digit or the underscore, or a rune above ASCII that is a Unicode space and
neither a letter nor a digit; title case is upper case on ASCII. So on a prefix
without separator only the first rune changes: `"pdns"` gives
`"Pdns: Packet Cache"` for `packetcache`, while `"pdns-auth"` gives
`"Pdns-Auth: Packet Cache"`. -/
theorem C14_label_from_title :
    (∀ (Title : String → String) (p : Plugin) (k : String) (g : Graphs),
      (GraphDefinition Title p).lookup k = some g →
        ∃ t, (k, t) ∈ graphTitles ∧ g.Label = Title p.Prefix ++ ": " ++ t) ∧
    (∀ (U : UnicodeTables) (s : String),
      (stringsTitle U s).data.length = s.data.length ∧
        (∀ (i : Nat) (c : Char), s.data[i]? = some c →
          (stringsTitle U s).data[i]? =
            some (if isSeparator U (runeBefore s.data i) then ToTitle U c else c)) ∧
        ((∀ c ∈ s.data, isSeparator U c = false) → stringsTitle U s = upperFirst U s)) ∧
    (∀ (U : UnicodeTables) (r : Char),
      (r.toNat ≤ 0x7F →
        isSeparator U r = !(r.isAlphanum || r == '_') ∧ ToTitle U r = r.toUpper) ∧
      (0x7F < r.toNat →
        isSeparator U r = (!(U.IsLetter r || U.IsDigit r) && U.IsSpace r) ∧
          ToTitle U r = U.ToTitle r)) ∧
    (∀ (U : UnicodeTables) (path : String),
      ((GraphDefinition (stringsTitle U) (Plugin.mk "pdns" path)).lookup "packetcache").map
        Graphs.Label = some "Pdns: Packet Cache") ∧
    ∀ (U : UnicodeTables) (path : String),
      ((GraphDefinition (stringsTitle U) (Plugin.mk "pdns-auth" path)).lookup
        "packetcache").map Graphs.Label = some "Pdns-Auth: Packet Cache" := by
  refine ⟨?_, ?_, ?_, ?_, ?_⟩
  · intro Title p k g hg
    exact label_of_mem_graphTable _ k g (mem_graphTable_of_lookup Title p k g hg)
  · intro U s
    exact ⟨titleRunes_length U s.data ' ', stringsTitle_getElem? U s,
      stringsTitle_of_no_separator U s⟩
  · intro U r
    exact ⟨isSeparator_ascii U r, isSeparator_above U r⟩
  · intro U path
    have h : ∃ g, (graphTable (stringsTitle U "pdns"))[2]? = some ("packetcache", g) ∧
        g.Label = "Pdns: Packet Cache" := ⟨_, rfl, rfl⟩
    obtain ⟨g, hg, hl⟩ := h
    rw [lookup_of_mem_graphTable (stringsTitle U) (Plugin.mk "pdns" path) "packetcache" g
      (List.getElem?_mem hg)]
    simp only [Option.map_some', hl]
  · intro U path
    have h : ∃ g, (graphTable (stringsTitle U "pdns-auth"))[2]? = some ("packetcache", g) ∧
        g.Label = "Pdns-Auth: Packet Cache" := ⟨_, rfl, rfl⟩
    obtain ⟨g, hg, hl⟩ := h
    rw [lookup_of_mem_graphTable (stringsTitle U) (Plugin.mk "pdns-auth" path) "packetcache" g
      (List.getElem?_mem hg)]
    simp only [Option.map_some', hl]

/-- Witness of C14 at the prefixes `"pdns"` and `"pdns-auth"` and the graph
`packetcache`: the rune at position 5 of `"pdns-auth"` follows the separator `-` and
is title-cased. -/
theorem C14_label_from_title_witness :
    (GraphDefinition (stringsTitle asciiOnly) (Plugin.mk "pdns" "/usr/bin/pdns_control")).lookup
        "packetcache" =
      some (Graphs.mk "Pdns: Packet Cache" "integer"
        [Metrics.mk "packetcache-hit" "Hits" true true,
          Metrics.mk "packetcache-miss" "Misses" true true]) ∧
    (∃ t, ("packetcache", t) ∈ graphTitles ∧
      "Pdns: Packet Cache" = stringsTitle asciiOnly "pdns" ++ ": " ++ t) ∧
    (∀ c ∈ "pdns".data, isSeparator asciiOnly c = false) ∧
    stringsTitle asciiOnly "pdns" = upperFirst asciiOnly "pdns" ∧
    "pdns-auth".data[5]? = some 'a' ∧
    (stringsTitle asciiOnly "pdns-auth").data[5]? =
      some (if isSeparator asciiOnly (runeBefore "pdns-auth".data 5) then ToTitle asciiOnly 'a'
        else 'a') ∧
    ('-'.toNat ≤ 0x7F ∧ isSeparator asciiOnly '-' = !('-'.isAlphanum || '-' == '_')) :=
  have hg : (GraphDefinition (stringsTitle asciiOnly)
      (Plugin.mk "pdns" "/usr/bin/pdns_control")).lookup "packetcache" =
      some (Graphs.mk "Pdns: Packet Cache" "integer"
        [Metrics.mk "packetcache-hit" "Hits" true true,
          Metrics.mk "packetcache-miss" "Misses" true true]) := by decide
  have hs : ∀ c ∈ "pdns".data, isSeparator asciiOnly c = false := by decide
  have h5 : "pdns-auth".data[5]? = some 'a' := by decide
  have hd : '-'.toNat ≤ 0x7F := by decide
  ⟨hg, C14_label_from_title.1 (stringsTitle asciiOnly)
      (Plugin.mk "pdns" "/usr/bin/pdns_control") "packetcache" _ hg, hs,
    (C14_label_from_title.2.1 asciiOnly "pdns").2.2 hs, h5,
    (C14_label_from_title.2.1 asciiOnly "pdns-auth").2.1 5 'a' h5,
    hd, ((C14_label_from_title.2.2.1 asciiOnly '-').1 hd).1⟩

/-- C20. Graph labels are not unique in the catalogue: for every prefix the graphs
`backend` and `tcp-connection` have identical labels, while any other two graphs
with distinct keys have distinct labels. -/
theorem C20_labels_not_unique (Title : String → String) (p : Plugin) :
    (∃ g₁ g₂ : Graphs,
      (GraphDefinition Title p).lookup "backend" = some g₁ ∧
        (GraphDefinition Title p).lookup "tcp-connection" = some g₂ ∧ g₁.Label = g₂.Label) ∧
    ∀ (k₁ k₂ : String) (g₁ g₂ : Graphs),
      (GraphDefinition Title p).lookup k₁ = some g₁ →
      (GraphDefinition Title p).lookup k₂ = some g₂ → k₁ ≠ k₂ → g₁.Label = g₂.Label →
        (k₁ = "backend" ∧ k₂ = "tcp-connection") ∨ (k₁ = "tcp-connection" ∧ k₂ = "backend") := by
  constructor
  · have h6 : ∃ g, (graphTable (Title p.Prefix))[6]? = some ("backend", g) ∧
        g.Label = Title p.Prefix ++ ": Backend" := ⟨_, rfl, rfl⟩
    have h7 : ∃ g, (graphTable (Title p.Prefix))[7]? = some ("tcp-connection", g) ∧
        g.Label = Title p.Prefix ++ ": Backend" := ⟨_, rfl, rfl⟩
    obtain ⟨g₁, hg₁, hl₁⟩ := h6
    obtain ⟨g₂, hg₂, hl₂⟩ := h7
    exact ⟨g₁, g₂, lookup_of_mem_graphTable Title p _ g₁ (List.getElem?_mem hg₁),
      lookup_of_mem_graphTable Title p _ g₂ (List.getElem?_mem hg₂), by rw [hl₁, hl₂]⟩
  · intro k₁ k₂ g₁ g₂ h₁ h₂ hne hl
    obtain ⟨t₁, ht₁, e₁⟩ :=
      label_of_mem_graphTable _ k₁ g₁ (mem_graphTable_of_lookup Title p k₁ g₁ h₁)
    obtain ⟨t₂, ht₂, e₂⟩ :=
      label_of_mem_graphTable _ k₂ g₂ (mem_graphTable_of_lookup Title p k₂ g₂ h₂)
    rw [e₁, e₂] at hl
    have ht : t₁ = t₂ := String_append_left_cancel _ _ _ hl
    have hall : ∀ a ∈ graphTitles, ∀ b ∈ graphTitles, a.1 ≠ b.1 → a.2 = b.2 →
        (a.1 = "backend" ∧ b.1 = "tcp-connection") ∨
          (a.1 = "tcp-connection" ∧ b.1 = "backend") := by decide
    exact hall (k₁, t₁) ht₁ (k₂, t₂) ht₂ hne ht

/-- Witness of C20: the graphs `backend` and `tcp-connection` of the prefix `"pdns"` have
distinct keys and the same label `"Pdns: Backend"`. -/
theorem C20_labels_not_unique_witness :
    (GraphDefinition (stringsTitle asciiOnly) (Plugin.mk "pdns" "/usr/bin/pdns_control")).lookup
        "backend" =
      some (Graphs.mk "Pdns: Backend" "integer"
        [Metrics.mk "backend-queries" "Backend queries" true false]) ∧
    (GraphDefinition (stringsTitle asciiOnly) (Plugin.mk "pdns" "/usr/bin/pdns_control")).lookup
        "tcp-connection" =
      some (Graphs.mk "Pdns: Backend" "integer"
        [Metrics.mk "open-tcp-connections" "TCP Connections" false false,
          Metrics.mk "fd-usage" "FD usage" false false]) ∧
    "backend" ≠ "tcp-connection" ∧
    (("backend" = "backend" ∧ "tcp-connection" = "tcp-connection") ∨
      ("backend" = "tcp-connection" ∧ "tcp-connection" = "backend")) :=
  have h₁ : (GraphDefinition (stringsTitle asciiOnly)
      (Plugin.mk "pdns" "/usr/bin/pdns_control")).lookup "backend" =
      some (Graphs.mk "Pdns: Backend" "integer"
        [Metrics.mk "backend-queries" "Backend queries" true false]) := by decide
  have h₂ : (GraphDefinition (stringsTitle asciiOnly)
      (Plugin.mk "pdns" "/usr/bin/pdns_control")).lookup "tcp-connection" =
      some (Graphs.mk "Pdns: Backend" "integer"
        [Metrics.mk "open-tcp-connections" "TCP Connections" false false,
          Metrics.mk "fd-usage" "FD usage" false false]) := by decide
  have hne : "backend" ≠ "tcp-connection" := by decide
  ⟨h₁, h₂, hne, (C20_labels_not_unique (stringsTitle asciiOnly)
    (Plugin.mk "pdns" "/usr/bin/pdns_control")).2 "backend" "tcp-connection" _ _ h₁ h₂ hne rfl⟩


/-! ## The loop, continued -/

/-- A value found after the loop was there before or was read from a fragment. -/
theorem lookup_foldl_step_some {V : Type} (pf : String → Option V) (k : String) (v : V)
    (frs : List String) (m : GoMap V)
    (h : (frs.foldl (FetchMetrics.step pf) m).lookup k = some v) :
    m.lookup k = some v ∨ ∃ b ∈ frs, entryOf pf b = some (k, v) := by
  induction frs generalizing m with
  | nil => exact Or.inl h
  | cons b bs ih =>
    rw [List.foldl_cons] at h
    rcases ih _ h with h' | ⟨b', hb', he⟩
    · rw [step_eq] at h'
      cases he : entryOf pf b with
      | none =>
        rw [he] at h'
        exact Or.inl h'
      | some q =>
        rw [he] at h'
        by_cases e : k = q.1
        · subst e
          rw [Finmap.lookup_insert] at h'
          refine Or.inr ⟨b, List.mem_cons_self _ _, ?_⟩
          rw [he, ← Option.some.inj h']
        · rw [Finmap.lookup_insert_of_ne m e] at h'
          exact Or.inl h'
    · exact Or.inr ⟨b', List.mem_cons_of_mem _ hb', he⟩

/-- The loop from `m` is the loop from the empty map, laid over `m`. -/
theorem foldl_step_union {V : Type} (pf : String → Option V) (frs : List String)
    (m : GoMap V) :
    frs.foldl (FetchMetrics.step pf) m = frs.foldl (FetchMetrics.step pf) ∅ ∪ m := by
  induction frs generalizing m with
  | nil => exact Finmap.empty_union.symm
  | cons b bs ih =>
    rw [List.foldl_cons, List.foldl_cons, ih (FetchMetrics.step pf m b),
      ih (FetchMetrics.step pf ∅ b), Finmap.union_assoc]
    congr 1
    rw [step_eq, step_eq]
    cases entryOf pf b with
    | none => exact Finmap.empty_union.symm
    | some q =>
      show Finmap.insert q.1 q.2 m = Finmap.insert q.1 q.2 ∅ ∪ m
      rw [← Finmap.insert_union, Finmap.empty_union]

/-- Fragments that stand for no entry leave the map alone. -/
theorem foldl_step_of_no_entry {V : Type} (pf : String → Option V) (frs : List String)
    (h : ∀ b ∈ frs, entryOf pf b = none) (m : GoMap V) :
    frs.foldl (FetchMetrics.step pf) m = m := by
  induction frs generalizing m with
  | nil => rfl
  | cons b bs ih =>
    rw [List.foldl_cons, step_eq, h b (List.mem_cons_self _ _)]
    exact ih (fun b' hb' => h b' (List.mem_cons_of_mem _ hb')) m

theorem keys_card_foldl_step_le {V : Type} (pf : String → Option V) (frs : List String) :
    (frs.foldl (FetchMetrics.step pf) ∅).keys.card ≤ frs.length := by
  have hsub : (frs.foldl (FetchMetrics.step pf) ∅).keys ⊆
      ((frs.filterMap (entryOf pf)).map Prod.fst).toFinset := by
    intro k hk
    rw [Finmap.mem_keys, mem_foldl_step] at hk
    rcases hk with hk | ⟨b, hb, f, hf⟩
    · exact absurd hk Finmap.not_mem_empty
    · rw [List.mem_toFinset]
      exact List.mem_map.2 ⟨(k, f), List.mem_filterMap.2 ⟨b, hb, hf⟩, rfl⟩
  calc (frs.foldl (FetchMetrics.step pf) ∅).keys.card
      ≤ ((frs.filterMap (entryOf pf)).map Prod.fst).toFinset.card := Finset.card_le_card hsub
    _ ≤ ((frs.filterMap (entryOf pf)).map Prod.fst).length := List.toFinset_card_le _
    _ = (frs.filterMap (entryOf pf)).length := List.length_map _ _
    _ ≤ frs.length := List.length_filterMap_le _ _

theorem Split_append_comma (s t : String) :
    Split (s ++ "," ++ t) ',' = Split s ',' ++ Split t ',' := by
  have e : (s ++ "," ++ t).data = s.data ++ ',' :: t.data := by
    simp [String.data_append]
  rw [Split_eq, Split_eq, Split_eq, e, pieces_append_sep, List.map_append]

theorem pieces_replicate (sep : Char) (n : Nat) :
    ∀ f ∈ pieces sep (List.replicate n sep), f = [] := by
  induction n with
  | zero =>
    intro f hf
    have : pieces sep [] = [[]] := rfl
    rw [List.replicate_zero, this] at hf
    exact List.mem_singleton.1 hf
  | succ n ih =>
    intro f hf
    have e : List.replicate (n + 1) sep = [] ++ sep :: List.replicate n sep := rfl
    rw [e, pieces_append sep [] _ (List.not_mem_nil _)] at hf
    rcases List.mem_cons.1 hf with h | h
    · exact h
    · exact ih f h

theorem entryOf_empty {V : Type} (pf : String → Option V) : entryOf pf (String.mk []) = none := by
  simp [entryOf]


/-! ## Claims about `FetchMetrics`, continued -/

/-- C15. Parse-level issues only shrink the result: for every captured output of a
successful command `FetchMetrics` returns a nil error, every key of the result is
the text before the first `=` of some comma-delimited fragment with, as its value,
the float parse of the text after that `=`, and the number of keys is at most the
number of comma-delimited fragments. -/
theorem C15_parse_issues_only_shrink (V ε : Type) (pf : String → Option V) (u : Plugin)
    (out : String) :
    ∃ m : GoMap V,
      FetchMetrics (stubOutput out : String → List String → String × Option ε) pf u =
          (some m, none) ∧
        (∀ (k : String) (v : V), m.lookup k = some v →
          ∃ b ∈ Split out ',',
            '=' ∈ b.data ∧ textBefore '=' b = k ∧ pf (textAfter '=' b) = some v) ∧
        m.keys.card ≤ (Split out ',').length := by
  refine ⟨FetchMetrics.parse pf out, rfl, ?_, keys_card_foldl_step_le pf _⟩
  intro k v hv
  rcases lookup_foldl_step_some pf k v _ ∅ hv with h | ⟨b, hb, he⟩
  · rw [Finmap.lookup_empty] at h
    exact Option.noConfusion h
  · exact ⟨b, hb, entryOf_eq_some pf b k v he⟩

/-- Witness of C15 at the output `"a=1,garbage"`: one key from two fragments. -/
theorem C15_parse_issues_only_shrink_witness :
    ∃ m : GoMap ℚ,
      FetchMetrics (stubOutput "a=1,garbage" : String → List String → String × Option String)
          parseFloatDecimal (Plugin.mk "pdns" "/usr/bin/pdns_control") = (some m, none) ∧
        (∀ (k : String) (v : ℚ), m.lookup k = some v →
          ∃ b ∈ Split "a=1,garbage" ',',
            '=' ∈ b.data ∧ textBefore '=' b = k ∧
              parseFloatDecimal (textAfter '=' b) = some v) ∧
        m.keys.card ≤ (Split "a=1,garbage" ',').length :=
  C15_parse_issues_only_shrink ℚ String parseFloatDecimal
    (Plugin.mk "pdns" "/usr/bin/pdns_control") "a=1,garbage"

/-- C16. Trailing commas are tolerated: for every captured output `s` and every number
`n` of `,` characters appended to it, `FetchMetrics` returns the same as on `s`. -/
theorem C16_trailing_commas (V ε : Type) (pf : String → Option V) (u : Plugin) (s : String)
    (n : Nat) :
    FetchMetrics
        (stubOutput (s ++ String.mk (List.replicate n ',')) :
          String → List String → String × Option ε) pf u =
      FetchMetrics (stubOutput s) pf u := by
  rw [FetchMetrics_stub, FetchMetrics_stub]
  congr 2
  cases n with
  | zero =>
    have e : s ++ String.mk (List.replicate 0 ',') = s := by
      show String.mk (s.data ++ []) = s
      rw [List.append_nil]
    rw [e]
  | succ n =>
    have e : (s ++ String.mk (List.replicate (n + 1) ',')).data =
        s.data ++ ',' :: List.replicate n ',' := by
      simp [String.data_append, List.replicate_succ]
    rw [FetchMetrics.parse, FetchMetrics.parse, Split_eq, Split_eq, e, pieces_append_sep,
      List.map_append, List.foldl_append]
    apply foldl_step_of_no_entry
    intro b hb
    obtain ⟨f, hf, rfl⟩ := List.mem_map.1 hb
    rw [pieces_replicate ',' n f hf]
    exact entryOf_empty pf

/-- C17. The method `MetricKeyPrefix` returns `"pdns"` when the stored prefix is empty and
the stored prefix otherwise; its result is never empty, it leaves `CommandPath`
unchanged, it changes `Prefix` only from `""` to `"pdns"`, so that after the call
the stored prefix is the returned string, and a second call returns the same value
and changes nothing. -/
theorem C17_metric_key_prefix (p : Plugin) :
    (MetricKeyPrefix p).1 = (if p.Prefix = "" then "pdns" else p.Prefix) ∧
      (MetricKeyPrefix p).1 ≠ "" ∧
      (MetricKeyPrefix p).2.CommandPath = p.CommandPath ∧
      ((MetricKeyPrefix p).2.Prefix = p.Prefix ∨
        (p.Prefix = "" ∧ (MetricKeyPrefix p).2.Prefix = "pdns")) ∧
      MetricKeyPrefix (MetricKeyPrefix p).2 = ((MetricKeyPrefix p).1, (MetricKeyPrefix p).2) ∧
      (MetricKeyPrefix p).2 =
        Plugin.mk (if p.Prefix = "" then "pdns" else p.Prefix) p.CommandPath ∧
      ((MetricKeyPrefix p).2 = p ↔ p.Prefix ≠ "") ∧
      MetricKeyPrefix (Plugin.mk "" p.CommandPath) = ("pdns", Plugin.mk "pdns" p.CommandPath) := by
  have hex : MetricKeyPrefix (Plugin.mk "" p.CommandPath) =
      ("pdns", Plugin.mk "pdns" p.CommandPath) := rfl
  by_cases h : p.Prefix = ""
  · have e : MetricKeyPrefix p = ("pdns", { p with Prefix := "pdns" }) := by
      simp [MetricKeyPrefix, h]
    rw [e]
    refine ⟨by simp [h], show "pdns" ≠ "" by decide, rfl, Or.inr ⟨h, rfl⟩, ?_, by simp [h],
      ?_, hex⟩
    · simp [MetricKeyPrefix]
    · constructor
      · intro hp
        have hp' := congrArg Plugin.Prefix hp
        rw [h] at hp'
        have hq : "pdns" = "" := hp'
        exact absurd hq (by decide)
      · intro hne
        exact absurd h hne
  · have e : MetricKeyPrefix p = (p.Prefix, p) := by
      simp [MetricKeyPrefix, h]
    rw [e]
    exact ⟨by simp [h], h, rfl, Or.inl rfl, e, by simp [h], ⟨fun _ => h, fun _ => rfl⟩, hex⟩

/-- C18. The parser is a right-biased homomorphism over comma concatenation: for all
texts `s` and `t` the map produced for `s`, a comma and `t` is the map for `s`
overridden by the map for `t`: a key of `t` has the value of `t`, any other key
has what `s` gives it. -/
theorem C18_comma_concatenation (V ε : Type) (pf : String → Option V) (u : Plugin)
    (s t : String) :
    ∃ ms mt m : GoMap V,
      FetchMetrics (stubOutput s : String → List String → String × Option ε) pf u =
          (some ms, none) ∧
        FetchMetrics (stubOutput t : String → List String → String × Option ε) pf u =
          (some mt, none) ∧
        FetchMetrics (stubOutput (s ++ "," ++ t) : String → List String → String × Option ε)
            pf u = (some m, none) ∧
        m = overriddenBy ms mt ∧
        ∀ k : String, m.lookup k = if k ∈ mt then mt.lookup k else ms.lookup k := by
  refine ⟨FetchMetrics.parse pf s, FetchMetrics.parse pf t, FetchMetrics.parse pf (s ++ "," ++ t),
    rfl, rfl, rfl, ?_, ?_⟩
  · rw [FetchMetrics.parse, Split_append_comma, List.foldl_append, foldl_step_union]
    rfl
  · intro k
    have e : FetchMetrics.parse pf (s ++ "," ++ t) =
        FetchMetrics.parse pf t ∪ FetchMetrics.parse pf s := by
      rw [FetchMetrics.parse, Split_append_comma, List.foldl_append, foldl_step_union]
      rfl
    rw [e]
    by_cases hk : k ∈ FetchMetrics.parse pf t
    · rw [if_pos hk, Finmap.lookup_union_left hk]
    · rw [if_neg hk, Finmap.lookup_union_right hk]


/-! ## White space -/

theorem readMantissa_append_bad (w : Char) (hd : digitVal w = none) (hdot : w ≠ '.')
    (cs : List Char) (sawdot : Bool) (mant frac : Nat) (sawdigits : Bool) :
    readMantissa (cs ++ [w]) sawdot mant frac sawdigits = none := by
  induction cs generalizing sawdot mant frac sawdigits with
  | nil => simp [readMantissa, hd, hdot]
  | cons c cs ih =>
    simp only [List.cons_append, readMantissa]
    by_cases hc : c = '.'
    · cases sawdot <;> simp [hc, ih]
    · cases hv : digitVal c with
      | none => simp [hc]
      | some d => simp [hc, ih]

theorem isBlank_cases (w : Char) (h : isBlank w = true) :
    w = ' ' ∨ w = '\t' ∨ w = '\n' ∨ w = '\r' := by
  simpa [isBlank, or_assoc] using h

/-- The reference parser rejects every text that ends in a white-space character. -/
theorem parseFloatDecimal_blank (v : String) (w : Char) (h : isBlank w = true) :
    parseFloatDecimal (v ++ String.singleton w) = none := by
  have hw : digitVal w = none ∧ w ≠ '.' ∧ w ≠ '+' ∧ w ≠ '-' := by
    rcases isBlank_cases w h with e | e | e | e <;> subst e <;> decide
  obtain ⟨hd, hdot, hplus, hminus⟩ := hw
  have e : (v ++ String.singleton w).data = v.data ++ [w] := by
    simp [String.data_append, String.singleton]
  have key : ∀ cs : List Char, readDecimal (cs ++ [w]) = none := by
    intro cs
    cases cs with
    | nil =>
      have h1 := readMantissa_append_bad w hd hdot [] false 0 0 false
      simp only [List.nil_append] at h1
      unfold readDecimal
      split <;> simp_all
    | cons c cs =>
      have h1 := readMantissa_append_bad w hd hdot cs false 0 0 false
      have h2 := readMantissa_append_bad w hd hdot (c :: cs) false 0 0 false
      simp only [List.cons_append] at h2 ⊢
      unfold readDecimal
      split <;> simp_all
  rw [parseFloatDecimal, e, key]
  rfl


theorem data_singleton (w : Char) : (String.singleton w).data = [w] := rfl

theorem not_mem_textBefore (sep : Char) (b : String) : sep ∉ (textBefore sep b).data := by
  intro h
  have h' : sep ∈ b.data.takeWhile (fun c => decide (c ≠ sep)) := h
  have := List.mem_takeWhile_imp h'
  simp at this

/-- A single fragment that ends in a character after which nothing parses stands for no
entry. -/
theorem entryOf_append_rejected {V : Type} (pf : String → Option V) (b : String) (w : Char)
    (hw : w ≠ '=') (hpf : ∀ v : String, pf (v ++ String.singleton w) = none) :
    entryOf pf (b ++ String.singleton w) = none := by
  by_cases he : '=' ∈ b.data
  · have hb : b ++ String.singleton w =
        pair (textBefore '=' b, textAfter '=' b ++ String.singleton w) := by
      conv_lhs => rw [← pair_textBefore_textAfter b he]
      simp only [pair, String.append_assoc]
    rw [hb, entryOf_pair pf _ _ (not_mem_textBefore '=' b), hpf]
    rfl
  · have he' : '=' ∉ (b ++ String.singleton w).data := by
      simp only [String.data_append, data_singleton, List.mem_append, List.mem_singleton,
        not_or]
      exact ⟨he, fun e => hw e.symm⟩
    simp only [entryOf, he', if_false]

/-- C19. `FetchMetrics` trims no white space. As soon as the float parser rejects every
text ending in a white-space character, which the reference parser does, the loop
body drops every fragment ending in that character, and an output that is a
single fragment followed by it, such as `"a=1\n"`, yields the empty map. The loop
body stores a fragment `k=v` under the key `k` exactly as written and hands `v`
exactly as written to the float parser, so white space before (or after) a name
stays in the key: a single pair `k=v` yields exactly the key `k`, and `"\na=1"`
yields the key `"\na"`, not `"a"`. -/
theorem C19_no_trimming :
    (∀ (V ε : Type) (pf : String → Option V) (u : Plugin) (b : String) (w : Char),
      isBlank w = true → ',' ∉ b.data → (∀ v : String, pf (v ++ String.singleton w) = none) →
      FetchMetrics
          (stubOutput (b ++ String.singleton w) : String → List String → String × Option ε)
          pf u = (some ∅, none)) ∧
    (∀ (v : String) (w : Char), isBlank w = true →
      parseFloatDecimal (v ++ String.singleton w) = none) ∧
    (∀ u : Plugin,
      FetchMetrics (stubOutput "a=1\n" : String → List String → String × Option String)
        parseFloatDecimal u = (some ∅, none)) ∧
    (∀ (V ε : Type) (pf : String → Option V) (u : Plugin) (x : V), pf "1" = some x →
      FetchMetrics (stubOutput "\na=1" : String → List String → String × Option ε) pf u =
        (some (GoMap.ofList [("\na", x)]), none)) ∧
    (∀ u : Plugin,
      FetchMetrics (stubOutput "\na=1" : String → List String → String × Option String)
          parseFloatDecimal u = (some (GoMap.ofList [("\na", 1)]), none) ∧
        "\na" ∈ GoMap.ofList [("\na", (1 : ℚ))] ∧ "a" ∉ GoMap.ofList [("\na", (1 : ℚ))]) ∧
    (∀ (V : Type) (pf : String → Option V) (m : GoMap V) (b : String) (w : Char),
      isBlank w = true → (∀ v : String, pf (v ++ String.singleton w) = none) →
      FetchMetrics.step pf m (b ++ String.singleton w) = m) ∧
    (∀ (V : Type) (pf : String → Option V) (m : GoMap V) (k v : String), '=' ∉ k.data →
      FetchMetrics.step pf m (pair (k, v)) =
        match pf v with
        | none => m
        | some x => m.insert k x) ∧
    (∀ (V ε : Type) (pf : String → Option V) (u : Plugin) (k v : String) (x : V),
      ',' ∉ k.data → '=' ∉ k.data → ',' ∉ v.data → pf v = some x →
      FetchMetrics (stubOutput (pair (k, v)) : String → List String → String × Option ε) pf u =
        (some (GoMap.ofList [(k, x)]), none)) ∧
    ∀ (V : Type) (w : Char) (name : String) (x : V),
      (String.singleton w ++ name ∈ GoMap.ofList [(String.singleton w ++ name, x)] ∧
        name ∉ GoMap.ofList [(String.singleton w ++ name, x)]) ∧
      (name ++ String.singleton w ∈ GoMap.ofList [(name ++ String.singleton w, x)] ∧
        name ∉ GoMap.ofList [(name ++ String.singleton w, x)]) := by
  have general : ∀ (V ε : Type) (pf : String → Option V) (u : Plugin) (b : String) (w : Char),
      isBlank w = true → ',' ∉ b.data → (∀ v : String, pf (v ++ String.singleton w) = none) →
      FetchMetrics
          (stubOutput (b ++ String.singleton w) : String → List String → String × Option ε)
          pf u = (some ∅, none) := by
    intro V ε pf u b w hw hb hpf
    have hne : w ≠ '=' ∧ w ≠ ',' := by
      rcases isBlank_cases w hw with e | e | e | e <;> subst e <;> decide
    have hcomma : ',' ∉ (b ++ String.singleton w).data := by
      simp only [String.data_append, data_singleton, List.mem_append, List.mem_singleton,
        not_or]
      exact ⟨hb, fun e => hne.2 e.symm⟩
    rw [FetchMetrics_stub, FetchMetrics.parse, Split_eq, pieces_of_not_mem ',' _ hcomma]
    show (some (FetchMetrics.step pf ∅ (b ++ String.singleton w)), none) = (some ∅, none)
    rw [step_eq, entryOf_append_rejected pf b w hne.1 hpf]
  have keyed : ∀ (V ε : Type) (pf : String → Option V) (u : Plugin) (x : V), pf "1" = some x →
      FetchMetrics (stubOutput "\na=1" : String → List String → String × Option ε) pf u =
        (some (GoMap.ofList [("\na", x)]), none) := by
    intro V ε pf u x hx
    rw [FetchMetrics_stub]
    simp only [FetchMetrics.parse, show Split "\na=1" ',' = ["\na=1"] by decide,
      List.foldl_cons, List.foldl_nil, FetchMetrics.step,
      show SplitN "\na=1" '=' 2 = ["\na", "1"] by decide, hx]
    rfl
  refine ⟨general, parseFloatDecimal_blank, ?_, keyed, ?_, ?_, ?_, ?_, ?_⟩
  · intro u
    exact general ℚ String parseFloatDecimal u "a=1" '\n' (by decide) (by decide)
      (fun v => parseFloatDecimal_blank v '\n' (by decide))
  · intro u
    refine ⟨keyed ℚ String parseFloatDecimal u 1 parseFloatDecimal_one, ?_, ?_⟩
    · exact (Finmap.mem_insert (s := ∅)).2 (Or.inl rfl)
    · intro h
      rcases (Finmap.mem_insert (s := ∅)).1 h with e | e
      · exact absurd e (by decide)
      · exact Finmap.not_mem_empty e
  · intro V pf m b w hw hpf
    have hne : w ≠ '=' := by
      rcases isBlank_cases w hw with e | e | e | e <;> subst e <;> decide
    rw [step_eq, entryOf_append_rejected pf b w hne hpf]
  · intro V pf m k v hk
    rw [step_eq, entryOf_pair pf k v hk]
    cases pf v <;> rfl
  · intro V ε pf u k v x hk1 hk2 hv hx
    have hcomma : ',' ∉ (pair (k, v)).data := by
      simp only [pair, String.data_append, List.mem_append, not_or]
      exact ⟨⟨hk1, by decide⟩, hv⟩
    rw [FetchMetrics_stub, FetchMetrics.parse, Split_eq, pieces_of_not_mem ',' _ hcomma]
    show (some (FetchMetrics.step pf ∅ (pair (k, v))), none) = (some (GoMap.ofList [(k, x)]), none)
    rw [step_eq, entryOf_pair pf k v hk2, hx]
    rfl
  · intro V w name x
    have hl : String.singleton w ++ name ≠ name := by
      intro e
      have e' := congrArg (fun t : String => t.data.length) e
      simp only [String.data_append, data_singleton, List.length_append, List.length_singleton]
        at e'
      omega
    have hr : name ++ String.singleton w ≠ name := by
      intro e
      have e' := congrArg (fun t : String => t.data.length) e
      simp only [String.data_append, data_singleton, List.length_append, List.length_singleton]
        at e'
      omega
    refine ⟨⟨(Finmap.mem_insert (s := ∅)).2 (Or.inl rfl), ?_⟩,
      ⟨(Finmap.mem_insert (s := ∅)).2 (Or.inl rfl), ?_⟩⟩
    · intro h
      rcases (Finmap.mem_insert (s := ∅)).1 h with e | e
      · exact hl e.symm
      · exact Finmap.not_mem_empty e
    · intro h
      rcases (Finmap.mem_insert (s := ∅)).1 h with e | e
      · exact hr e.symm
      · exact Finmap.not_mem_empty e

/-- Witness of C19 with the reference parser: `"a=1\t"` yields the empty map, `"\na=1"`
the key `"\na"` and `" a =1"` the key `" a "`. -/
theorem C19_no_trimming_witness :
    isBlank '\t' = true ∧ ',' ∉ "a=1".data ∧
      (∀ v : String, parseFloatDecimal (v ++ String.singleton '\t') = none) ∧
      FetchMetrics
          (stubOutput ("a=1" ++ String.singleton '\t') :
            String → List String → String × Option String)
          parseFloatDecimal (Plugin.mk "pdns" "/usr/bin/pdns_control") = (some ∅, none) ∧
      parseFloatDecimal "1" = some 1 ∧
      FetchMetrics (stubOutput "\na=1" : String → List String → String × Option String)
          parseFloatDecimal (Plugin.mk "pdns" "/usr/bin/pdns_control") =
        (some (GoMap.ofList [("\na", 1)]), none) ∧
      (',' ∉ " a ".data ∧ '=' ∉ " a ".data ∧ ',' ∉ "1".data) ∧
      FetchMetrics (stubOutput (pair (" a ", "1")) : String → List String → String × Option String)
          parseFloatDecimal (Plugin.mk "pdns" "/usr/bin/pdns_control") =
        (some (GoMap.ofList [(" a ", 1)]), none) :=
  have h1 : isBlank '\t' = true := by decide
  have h2 : ',' ∉ "a=1".data := by decide
  have h3 : ∀ v : String, parseFloatDecimal (v ++ String.singleton '\t') = none :=
    fun v => C19_no_trimming.2.1 v '\t' h1
  have h4 : ',' ∉ " a ".data := by decide
  have h5 : '=' ∉ " a ".data := by decide
  have h6 : ',' ∉ "1".data := by decide
  ⟨h1, h2, h3,
    C19_no_trimming.1 ℚ String parseFloatDecimal (Plugin.mk "pdns" "/usr/bin/pdns_control")
      "a=1" '\t' h1 h2 h3,
    parseFloatDecimal_one,
    C19_no_trimming.2.2.2.1 ℚ String parseFloatDecimal
      (Plugin.mk "pdns" "/usr/bin/pdns_control") 1 parseFloatDecimal_one,
    ⟨h4, h5, h6⟩,
    C19_no_trimming.2.2.2.2.2.2.2.1 ℚ String parseFloatDecimal
      (Plugin.mk "pdns" "/usr/bin/pdns_control") " a " "1" 1 h4 h5 h6 parseFloatDecimal_one⟩


end PdnsPlugin
